import Mathlib

/-!
Verification of the chain-sync core of `lightning-block-sync/src/lib.rs`.

The development shallowly embeds the data model and the operations of the
chain notifier (`ChainNotifier::sync_listener`, `ChainNotifier::find_fork`,
`ChainNotifier::look_up_previous_header`) and of the orchestrator
(`SpvClient::poll_best_tip`, `SpvClient::update_chain_tip`).

Modelling conventions:
* Block hashes are `Nat` (stand-ins for 32-byte double-SHA256 values);
  chainwork is `Nat` (stand-in for `Uint256`).
* The asynchronous poller (`Poll` trait; its implementation `ChainPoller`
  lives in `poll.rs`, outside this crate slice) is modelled as a record of
  pure result-returning functions.  Within one sync each (method, header)
  pair is consulted at most once, so a pure function loses no generality.
* The header cache trait is modelled with the semantics of the shipped
  `UnboundedCache` (a hash map), as a function `Nat → Option _`.
* The `loop` of `find_fork` need not terminate for arbitrary pollers, so it
  is embedded with explicit fuel; `none` denotes divergence (the Rust loop
  never returning).
* `assert_eq!` failures abort the Rust process; they are modelled by the
  `panicked` outcome.  `debug_assert!`/`debug_assert_eq!` compile to no-ops
  in release builds and are not executed by the model.
* Listener callbacks (`block_connected` / `block_disconnected`) are recorded
  in an event trace; each trace entry records the `ValidatedBlockHeader`
  that drove the callback (and, for connections, the fetched block), from
  which the actual callback arguments (`&block, header.height` resp.
  `&header.header, header.height`) are projections.
-/

/-- The 80-byte Bitcoin block header.  Only `prev_blockhash` is read by this
module; the remaining fields (merkle root, time, bits, nonce, version) flow
through opaquely and are omitted. -/
structure BlockHeader where
  prev_blockhash : Nat
deriving DecidableEq

/-- `poll::ValidatedBlockHeader`: a block header plus its hash, height and
cumulative chainwork, as validated by the poller. -/
structure ValidatedBlockHeader where
  block_hash : Nat
  header : BlockHeader
  height : Nat
  chainwork : Nat
deriving DecidableEq

/-- A fetched block (`poll::ValidatedBlock`): only its hash is inspected by
this module (in a `debug_assert_eq!`); its transactions flow through to the
listener opaquely. -/
structure Block where
  block_hash : Nat
deriving DecidableEq

/-- `BlockSourceErrorKind`: persistent or transient. -/
inductive BlockSourceErrorKind
  | Persistent
  | Transient
deriving DecidableEq

/-- `BlockSourceError`: a kind and an opaque underlying cause (modelled by a
numeric identifier). -/
structure BlockSourceError where
  kind : BlockSourceErrorKind
  errId : Nat
deriving DecidableEq

/-- `poll::ChainTip`: the poller's verdict on the best chain tip. -/
inductive ChainTip
  | Common
  | Better (tip : ValidatedBlockHeader)
  | Worse (tip : ValidatedBlockHeader)
deriving DecidableEq

/-- The `Poll` capability set consumed by the notifier and the orchestrator
(the trait is declared in `poll.rs`).  Each capability is a pure
result-returning function. -/
structure Poller where
  poll_chain_tip : ValidatedBlockHeader → Except BlockSourceError ChainTip
  look_up_previous_header :
    ValidatedBlockHeader → Except BlockSourceError ValidatedBlockHeader
  fetch_block : ValidatedBlockHeader → Except BlockSourceError Block

/-- The header cache (`Cache` trait), with the semantics of the shipped
`UnboundedCache`: a map from block hash to validated header. -/
def Cache : Type := Nat → Option ValidatedBlockHeader

/-- `Cache::get`. -/
def Cache.get (c : Cache) (block_hash : Nat) : Option ValidatedBlockHeader :=
  c block_hash

/-- `Cache::insert`. -/
def Cache.insert (c : Cache) (block_hash : Nat) (block_header : ValidatedBlockHeader) :
    Cache :=
  fun k => if k = block_hash then some block_header else c k

/-- `Cache::remove` (the removed entry, when present, is what the Rust call
returns; the model reads it with `Cache.get` before removing). -/
def Cache.remove (c : Cache) (block_hash : Nat) : Cache :=
  fun k => if k = block_hash then none else c k

/-- `ForkStep`: steps transforming the chain from one tip to another. -/
inductive ForkStep
  | ForkPoint (h : ValidatedBlockHeader)
  | DisconnectBlock (h : ValidatedBlockHeader)
  | ConnectBlock (h : ValidatedBlockHeader)
deriving DecidableEq

/-- A recorded listener callback.  `block_connected` records the fetched
block and the driving header (the Rust call passes `&block, header.height`);
`block_disconnected` records the driving header (the Rust call passes
`&header.header, header.height`). -/
inductive Callback
  | block_connected (block : Block) (header : ValidatedBlockHeader)
  | block_disconnected (header : ValidatedBlockHeader)
deriving DecidableEq

/-- The height argument the listener received with a callback. -/
def Callback.height : Callback → Nat
  | .block_connected _ h => h.height
  | .block_disconnected h => h.height

/-- `ChainNotifier::look_up_previous_header`: consult the cache for the
parent hash, falling back to the poller on a miss. -/
def look_up_previous_header (header_cache : Cache) (chain_poller : Poller)
    (header : ValidatedBlockHeader) : Except BlockSourceError ValidatedBlockHeader :=
  match Cache.get header_cache header.header.prev_blockhash with
  | some prev_header => Except.ok prev_header
  | none => chain_poller.look_up_previous_header header

/-- The `loop` of `ChainNotifier::find_fork`, with explicit fuel.  `none`
means the fuel ran out, i.e. the Rust loop diverges.  In the general-walk
branch the Rust code pushes the `DisconnectBlock`/`ConnectBlock` step and
then propagates a lookup error with `?` (discarding the steps vector); the
model propagates the error first, which yields the same result. -/
def find_fork_loop (header_cache : Cache) (chain_poller : Poller) :
    Nat → ValidatedBlockHeader → ValidatedBlockHeader → List ForkStep →
    Option (Except BlockSourceError (List ForkStep))
  | 0, _, _, _ => none
  | Nat.succ fuel, current, previous, steps =>
    -- Found the parent block.
    if current.height = previous.height + 1 ∧
        current.header.prev_blockhash = previous.block_hash then
      some (Except.ok (steps ++ [ForkStep.ConnectBlock current]))
    -- Found a chain fork.
    else if current.header.prev_blockhash = previous.header.prev_blockhash then
      match look_up_previous_header header_cache chain_poller previous with
      | Except.error e => some (Except.error e)
      | Except.ok fork_point =>
          some (Except.ok (steps ++ [ForkStep.DisconnectBlock previous,
            ForkStep.ConnectBlock current, ForkStep.ForkPoint fork_point]))
    -- Walk back the header with the greater height, or both if equal.
    else if current.height ≤ previous.height then
      match look_up_previous_header header_cache chain_poller previous with
      | Except.error e => some (Except.error e)
      | Except.ok previous2 =>
          let steps2 := steps ++ [ForkStep.DisconnectBlock previous]
          if current.height ≥ previous.height then
            match look_up_previous_header header_cache chain_poller current with
            | Except.error e => some (Except.error e)
            | Except.ok current2 =>
                find_fork_loop header_cache chain_poller fuel current2 previous2
                  (steps2 ++ [ForkStep.ConnectBlock current])
          else
            find_fork_loop header_cache chain_poller fuel current previous2 steps2
    else
      match look_up_previous_header header_cache chain_poller current with
      | Except.error e => some (Except.error e)
      | Except.ok current2 =>
          find_fork_loop header_cache chain_poller fuel current2 previous
            (steps ++ [ForkStep.ConnectBlock current])

/-- `ChainNotifier::find_fork`. -/
def find_fork (header_cache : Cache) (chain_poller : Poller) (fuel : Nat)
    (current_header prev_header : ValidatedBlockHeader) :
    Option (Except BlockSourceError (List ForkStep)) :=
  find_fork_loop header_cache chain_poller fuel current_header prev_header []

/-- State after the disconnect pass of `sync_listener` (the first `for`
loop): whether the `assert_eq!(cached_header, *header)` fired, the cache,
`last_disconnect_tip`, `new_tip`, and the callbacks issued so far. -/
structure DisconnectState where
  panicked : Bool
  header_cache : Cache
  last_disconnect_tip : Option Nat
  new_tip : Option ValidatedBlockHeader
  callbacks : List Callback

/-- The disconnect pass of `sync_listener`: walk the plan in order; remove
each disconnected block from the cache (panicking if a cached entry
disagrees), notify the listener, track `last_disconnect_tip`; record the
fork point into `new_tip`; skip `ConnectBlock` entries. -/
def disconnect_pass : List ForkStep → Cache → Option Nat →
    Option ValidatedBlockHeader → List Callback → DisconnectState
  | [], cache, ldt, nt, cbs => ⟨false, cache, ldt, nt, cbs⟩
  | ForkStep.DisconnectBlock header :: rest, cache, ldt, nt, cbs =>
      match Cache.get cache header.block_hash with
      | some cached_header =>
          let cache2 := Cache.remove cache header.block_hash
          if cached_header = header then
            disconnect_pass rest cache2 (some header.header.prev_blockhash) nt
              (cbs ++ [Callback.block_disconnected header])
          else ⟨true, cache2, ldt, nt, cbs⟩
      | none =>
          disconnect_pass rest cache (some header.header.prev_blockhash) nt
            (cbs ++ [Callback.block_disconnected header])
  | ForkStep.ForkPoint header :: rest, cache, ldt, _nt, cbs =>
      disconnect_pass rest cache ldt (some header) cbs
  | ForkStep.ConnectBlock _ :: rest, cache, ldt, nt, cbs =>
      disconnect_pass rest cache ldt nt cbs

/-- Outcome of `sync_listener`: `Ok(())`, `Err((e, tip))`, or a process
abort from a failed `assert_eq!`. -/
inductive SyncOutcome
  | ok
  | fail (e : BlockSourceError) (tip : Option ValidatedBlockHeader)
  | panicked
deriving DecidableEq

/-- The connect pass of `sync_listener` (the second `for` loop, over the
plan in reverse): fetch each block to connect, aborting with
`Err((e, new_tip))` on a fetch failure; insert the header into the cache,
notify the listener, and advance `new_tip`. -/
def connect_pass (chain_poller : Poller) :
    List ForkStep → Cache → Option ValidatedBlockHeader → List Callback →
    SyncOutcome × Cache × List Callback
  | [], cache, _, cbs => (SyncOutcome.ok, cache, cbs)
  | ForkStep.ConnectBlock header :: rest, cache, new_tip, cbs =>
      match chain_poller.fetch_block header with
      | Except.error e => (SyncOutcome.fail e new_tip, cache, cbs)
      | Except.ok block =>
          connect_pass chain_poller rest (Cache.insert cache header.block_hash header)
            (some header) (cbs ++ [Callback.block_connected block header])
  | _ :: rest, cache, new_tip, cbs => connect_pass chain_poller rest cache new_tip cbs

/-- What `sync_listener` leaves behind: its outcome, the notifier's cache,
and the listener callbacks issued during the sync. -/
structure SyncReturn where
  outcome : SyncOutcome
  header_cache : Cache
  callbacks : List Callback

/-- `ChainNotifier::sync_listener`: plan with `find_fork` (errors surface as
`Err((e, None))` with no side effect); run the disconnect pass; check
`assert_eq!(last_disconnect_tip.is_some(), new_tip.is_some())`; default
`new_tip` to the old header when no fork point was recorded; run the
connect pass.  `none` means `find_fork` diverged. -/
def sync_listener (header_cache : Cache) (chain_poller : Poller) (fuel : Nat)
    (new_header old_header : ValidatedBlockHeader) : Option SyncReturn :=
  match find_fork header_cache chain_poller fuel new_header old_header with
  | none => none
  | some (Except.error e) => some ⟨SyncOutcome.fail e none, header_cache, []⟩
  | some (Except.ok events) =>
      let st := disconnect_pass events header_cache none none []
      if st.panicked then some ⟨SyncOutcome.panicked, st.header_cache, st.callbacks⟩
      else if st.last_disconnect_tip.isSome ≠ st.new_tip.isSome then
        some ⟨SyncOutcome.panicked, st.header_cache, st.callbacks⟩
      else
        let new_tip : Option ValidatedBlockHeader :=
          match st.new_tip with
          | some tip_header => some tip_header
          | none => some old_header
        match connect_pass chain_poller events.reverse st.header_cache new_tip
            st.callbacks with
        | (outcome, cache2, cbs2) => some ⟨outcome, cache2, cbs2⟩

/-- `SpvClient` state: the authoritative chain tip, the notifier's header
cache, and the cumulative listener callback log. -/
structure SpvClient where
  chain_tip : ValidatedBlockHeader
  header_cache : Cache
  callbacks : List Callback

/-- Result of `SpvClient::update_chain_tip`. -/
inductive UpdateResult
  | done (blocks_connected : Bool) (c : SpvClient)
  | panicked (c : SpvClient)
  | diverged

/-- `SpvClient::update_chain_tip`: sync the listener; adopt the new tip on
`Ok`, adopt a partial tip that differs from the current one, and otherwise
report that nothing durable changed. -/
def update_chain_tip (chain_poller : Poller) (fuel : Nat) (c : SpvClient)
    (best_chain_tip : ValidatedBlockHeader) : UpdateResult :=
  match sync_listener c.header_cache chain_poller fuel best_chain_tip c.chain_tip with
  | none => UpdateResult.diverged
  | some r =>
      let c2 : SpvClient :=
        { c with header_cache := r.header_cache, callbacks := c.callbacks ++ r.callbacks }
      match r.outcome with
      | SyncOutcome.ok => UpdateResult.done true { c2 with chain_tip := best_chain_tip }
      | SyncOutcome.fail _ (some chain_tip) =>
          if chain_tip.block_hash ≠ c.chain_tip.block_hash then
            UpdateResult.done true { c2 with chain_tip := chain_tip }
          else UpdateResult.done false c2
      | SyncOutcome.fail _ none => UpdateResult.done false c2
      | SyncOutcome.panicked => UpdateResult.panicked c2

/-- Result of `SpvClient::poll_best_tip` (with the extra outcomes the Rust
function cannot return normally: a panic or a diverging sync). -/
inductive PollOutcome
  | ok (tip : ChainTip) (blocks_connected : Bool)
  | fail (e : BlockSourceError)
  | panicked
  | diverged
deriving DecidableEq

/-- `SpvClient::poll_best_tip`: poll for the best tip and dispatch on the
verdict (`debug_assert` calls are release no-ops and not modelled). -/
def poll_best_tip (chain_poller : Poller) (fuel : Nat) (c : SpvClient) :
    PollOutcome × SpvClient :=
  match chain_poller.poll_chain_tip c.chain_tip with
  | Except.error e => (PollOutcome.fail e, c)
  | Except.ok ChainTip.Common => (PollOutcome.ok ChainTip.Common false, c)
  | Except.ok (ChainTip.Better t) =>
      match update_chain_tip chain_poller fuel c t with
      | UpdateResult.done b c2 => (PollOutcome.ok (ChainTip.Better t) b, c2)
      | UpdateResult.panicked c2 => (PollOutcome.panicked, c2)
      | UpdateResult.diverged => (PollOutcome.diverged, c)
  | Except.ok (ChainTip.Worse t) => (PollOutcome.ok (ChainTip.Worse t) false, c)

/-! ### Derived views of plans and callback traces -/

/-- The header of a `DisconnectBlock` step, if any. -/
def stepDisc : ForkStep → Option ValidatedBlockHeader
  | ForkStep.DisconnectBlock h => some h
  | _ => none

/-- The header of a `ConnectBlock` step, if any. -/
def stepConn : ForkStep → Option ValidatedBlockHeader
  | ForkStep.ConnectBlock h => some h
  | _ => none

/-- The header of a `ForkPoint` step, if any. -/
def stepFork : ForkStep → Option ValidatedBlockHeader
  | ForkStep.ForkPoint h => some h
  | _ => none

/-- The `DisconnectBlock` headers of a plan, in plan order. -/
def discsOf (l : List ForkStep) : List ValidatedBlockHeader := l.filterMap stepDisc

/-- The `ConnectBlock` headers of a plan, in plan order. -/
def connsOf (l : List ForkStep) : List ValidatedBlockHeader := l.filterMap stepConn

/-- The `ForkPoint` headers of a plan, in plan order. -/
def forksOf (l : List ForkStep) : List ValidatedBlockHeader := l.filterMap stepFork

/-- The headers for which `block_connected` was announced, in call order. -/
def connectedHeaders (cbs : List Callback) : List ValidatedBlockHeader :=
  cbs.filterMap fun cb => match cb with
    | Callback.block_connected _ h => some h
    | _ => none

/-- The headers for which `block_disconnected` was announced, in call order. -/
def disconnectedHeaders (cbs : List Callback) : List ValidatedBlockHeader :=
  cbs.filterMap fun cb => match cb with
    | Callback.block_disconnected h => some h
    | _ => none

/-- The last element of `xs`, or the default `d` when `xs` is empty: the
value an `Option` accumulator overwritten once per list element ends at. -/
def optLast {α : Type} (xs : List α) (d : Option α) : Option α :=
  xs.foldl (fun _ x => some x) d

/-- The disconnect callbacks announced for the `DisconnectBlock` entries of a
plan, in plan order. -/
def discCallbacks (l : List ForkStep) : List Callback :=
  (discsOf l).map Callback.block_disconnected

/-- The connect callbacks the connect pass announces for the `ConnectBlock`
entries of `l` (in `l`'s order), pairing each with its fetched block; entries
whose fetch fails contribute nothing. -/
def connCallbacks (chain_poller : Poller) (l : List ForkStep) : List Callback :=
  l.filterMap fun s => match s with
    | ForkStep.ConnectBlock h =>
        match chain_poller.fetch_block h with
        | Except.ok b => some (Callback.block_connected b h)
        | Except.error _ => none
    | _ => none

/-- Insert every header of `hs`, keyed by its block hash, left to right. -/
def insertAll (cache : Cache) (hs : List ValidatedBlockHeader) : Cache :=
  hs.foldl (fun c h => Cache.insert c h.block_hash h) cache

/-! ### Contracts modelled from the spec

The `Poll` implementation (`ChainPoller` in `poll.rs`) and the cache
consistency requirement live outside the embedded file.  Modelled from the
spec: §4.1.1 step 3 ("whichever … has the greater height steps back by one
(via `look_up_previous_header`)"), §6 ("`look_up_previous_header(header) →
ValidatedBlockHeader`"), §3 ("the cache is *consistent* — a present entry
must equal what the poller would return for that hash"), and the
`ValidatedBlockHeader` invariant that parents sit one height below. -/

/-- Modelled from the spec: a successful cache-or-poller parent lookup
returns a header of height exactly one less than its argument. -/
def LookupDecrements (header_cache : Cache) (chain_poller : Poller) : Prop :=
  ∀ h h', look_up_previous_header header_cache chain_poller h = Except.ok h' →
    h'.height + 1 = h.height

/-- Modelled from the spec: a successful cache-or-poller parent lookup
returns a header whose hash is the argument's `prev_blockhash`. -/
def LookupHashes (header_cache : Cache) (chain_poller : Poller) : Prop :=
  ∀ h h', look_up_previous_header header_cache chain_poller h = Except.ok h' →
    h'.block_hash = h.header.prev_blockhash

/-- Modelled from the spec (claim C8's own premise): the poller's
`look_up_previous_header` either fails or returns a header of height exactly
one less than its argument's. -/
def PollerDecrements (chain_poller : Poller) : Prop :=
  ∀ h h', chain_poller.look_up_previous_header h = Except.ok h' →
    h'.height + 1 = h.height

/-- `find_fork` diverges on these inputs: no amount of fuel completes the
loop (the Rust loop never exits). -/
def FindForkDiverges (header_cache : Cache) (chain_poller : Poller)
    (current_header prev_header : ValidatedBlockHeader) : Prop :=
  ∀ fuel, find_fork header_cache chain_poller fuel current_header prev_header = none

/-- The headers a run of `find_fork` from tips `a` and `b` can touch: the
tips themselves and anything the cache-or-poller lookup can return. -/
def InPlay (header_cache : Cache) (chain_poller : Poller)
    (a b : ValidatedBlockHeader) (h : ValidatedBlockHeader) : Prop :=
  h = a ∨ h = b ∨
    ∃ x, look_up_previous_header header_cache chain_poller x = Except.ok h

/-- Two callbacks mirror each other when one connects exactly the header the
other disconnects (the fetched block payload is immaterial). -/
def MirrorCallback : Callback → Callback → Prop
  | Callback.block_connected _ h, Callback.block_disconnected h' => h = h'
  | Callback.block_disconnected h, Callback.block_connected _ h' => h = h'
  | _, _ => False

/-- Decidable equality on `Except`, for evaluating concrete runs. -/
instance {ε α : Type} [DecidableEq ε] [DecidableEq α] : DecidableEq (Except ε α) := fun x y =>
  match x, y with
  | Except.ok a, Except.ok b =>
      if h : a = b then Decidable.isTrue (by rw [h])
      else Decidable.isFalse (fun hh => h (by injection hh))
  | Except.error a, Except.error b =>
      if h : a = b then Decidable.isTrue (by rw [h])
      else Decidable.isFalse (fun hh => h (by injection hh))
  | Except.ok _, Except.error _ => Decidable.isFalse (fun hh => Except.noConfusion hh)
  | Except.error _, Except.ok _ => Decidable.isFalse (fun hh => Except.noConfusion hh)

/-! ### Concrete instances used by witnesses and counterexamples -/

/-- Build a cache from an association list of (hash, header) pairs. -/
def Cache.ofList (l : List (Nat × ValidatedBlockHeader)) : Cache :=
  fun k => (l.find? (fun kv => kv.1 == k)).map (fun kv => kv.2)

/-- A sample error value. -/
def wErr : BlockSourceError := ⟨BlockSourceErrorKind.Transient, 7⟩

/-- Genesis-like block of the small witness chain (hash 100). -/
def wG : ValidatedBlockHeader := ⟨100, ⟨99⟩, 0, 5⟩

/-- Child of `wG` on branch A (hash 101). -/
def wA1 : ValidatedBlockHeader := ⟨101, ⟨100⟩, 1, 10⟩

/-- Child of `wG` on branch B (hash 102), sibling of `wA1`. -/
def wB1 : ValidatedBlockHeader := ⟨102, ⟨100⟩, 1, 11⟩

/-- Child of `wA1` (hash 103). -/
def wA2 : ValidatedBlockHeader := ⟨103, ⟨101⟩, 2, 20⟩

/-- Child of `wB1` (hash 104). -/
def wB2 : ValidatedBlockHeader := ⟨104, ⟨102⟩, 2, 21⟩

/-- A poller all of whose requests fail. -/
def wPollerFail : Poller :=
  ⟨fun _ => Except.error wErr, fun _ => Except.error wErr, fun _ => Except.error wErr⟩

/-- The empty cache. -/
def wEmpty : Cache := fun _ => none

/-- A poller that knows the parents along the two witness branches and the
blocks of the two branch tips, and fails on everything else. -/
def wPollerChain : Poller :=
  ⟨fun _ => Except.error wErr,
   fun h =>
     if h = wA1 ∨ h = wB1 then Except.ok wG
     else if h = wA2 then Except.ok wA1
     else if h = wB2 then Except.ok wB1
     else Except.error wErr,
   fun h =>
     if h = wA1 then Except.ok ⟨101⟩
     else if h = wB1 then Except.ok ⟨102⟩
     else if h = wA2 then Except.ok ⟨103⟩
     else if h = wB2 then Except.ok ⟨104⟩
     else Except.error wErr⟩

/-- Header at height 5 whose parent key `50` maps back to itself in
`c8cache`. -/
def c8H : ValidatedBlockHeader := ⟨1, ⟨50⟩, 5, 0⟩

/-- Header at height 5 whose parent key `60` maps back to itself in
`c8cache`. -/
def c8G : ValidatedBlockHeader := ⟨2, ⟨60⟩, 5, 0⟩

/-- A (corrupt) cache whose entries sit at their own parent keys, so the
combined cache-or-poller lookup never decreases heights. -/
def c8cache : Cache :=
  fun k => if k = 50 then some c8H else if k = 60 then some c8G else none

/-- Like `wPollerChain`, but refusing to serve the block of `wB2`: a block
fetch that fails mid-reorg. -/
def wPollerNoB2 : Poller :=
  ⟨fun _ => Except.error wErr,
   fun h =>
     if h = wA1 ∨ h = wB1 then Except.ok wG
     else if h = wA2 then Except.ok wA1
     else if h = wB2 then Except.ok wB1
     else Except.error wErr,
   fun h =>
     if h = wB1 then Except.ok ⟨102⟩
     else Except.error wErr⟩

/-- Parent lookup keyed purely on the requested parent hash: the witness
poller's `look_up_previous_header` body.  Serves `wG`, `wA1` and `wB1` by
their hashes and fails on everything else. -/
def c9lk (k : Nat) : Except BlockSourceError ValidatedBlockHeader :=
  if k = 100 then Except.ok wG
  else if k = 101 then Except.ok wA1
  else if k = 102 then Except.ok wB1
  else Except.error wErr

/-- A poller whose parent lookups depend only on the argument's
`prev_blockhash` and which serves the blocks of the two sibling tips. -/
def c9poller : Poller :=
  ⟨fun _ => Except.error wErr,
   fun h => c9lk h.header.prev_blockhash,
   fun h =>
     if h = wA1 then Except.ok ⟨101⟩
     else if h = wB1 then Except.ok ⟨102⟩
     else Except.error wErr⟩

/-- Cache of the first round-trip sync: the fork point and the branch-A tip. -/
def c9cache1 : Cache :=
  fun k => if k = 100 then some wG else if k = 101 then some wA1 else none

/-- Cache of the second round-trip sync: the fork point and the branch-B tip
(what the first sync leaves behind, up to entries irrelevant to lookups). -/
def c9cache2 : Cache :=
  fun k => if k = 100 then some wG else if k = 102 then some wB1 else none

-- (end of concrete witness instances)

/-! ### Basic lemmas about `find_fork_loop` -/

/-- The steps accumulator of `find_fork_loop` is write-only: running with
accumulator `steps` yields the run with empty accumulator, with `steps`
prepended to any successful plan. -/
theorem find_fork_loop_append (header_cache : Cache) (chain_poller : Poller) :
    ∀ (fuel : Nat) (current previous : ValidatedBlockHeader) (steps : List ForkStep),
    find_fork_loop header_cache chain_poller fuel current previous steps =
      (find_fork_loop header_cache chain_poller fuel current previous []).map
        (fun r => r.map (fun tail => steps ++ tail)) := by
  intro fuel
  induction fuel with
  | zero => intro c p s; rfl
  | succ fuel ih =>
    intro c p s
    simp only [find_fork_loop]
    by_cases h1 : c.height = p.height + 1 ∧ c.header.prev_blockhash = p.block_hash
    · simp [h1, Except.map]
    · simp only [if_neg h1]
      by_cases h2 : c.header.prev_blockhash = p.header.prev_blockhash
      · simp only [if_pos h2]
        cases hl : look_up_previous_header header_cache chain_poller p with
        | error e => simp [Except.map]
        | ok fp => simp [Except.map]
      · simp only [if_neg h2]
        by_cases h3 : c.height ≤ p.height
        · simp only [if_pos h3]
          cases hl : look_up_previous_header header_cache chain_poller p with
          | error e => simp [Except.map]
          | ok p2 =>
            simp only
            by_cases h4 : c.height ≥ p.height
            · simp only [if_pos h4]
              cases hl2 : look_up_previous_header header_cache chain_poller c with
              | error e => simp [Except.map]
              | ok c2 =>
                simp only
                rw [ih c2 p2 ((s ++ [ForkStep.DisconnectBlock p]) ++ [ForkStep.ConnectBlock c]),
                  ih c2 p2 (([] : List ForkStep) ++ [ForkStep.DisconnectBlock p]
                    ++ [ForkStep.ConnectBlock c])]
                cases hres : find_fork_loop header_cache chain_poller fuel c2 p2 [] with
                | none => simp [Except.map]
                | some r => cases r with
                  | error e => simp [Except.map]
                  | ok t => simp [Except.map]
            · simp only [if_neg h4]
              rw [ih c p2 (s ++ [ForkStep.DisconnectBlock p]),
                ih c p2 (([] : List ForkStep) ++ [ForkStep.DisconnectBlock p])]
              cases hres : find_fork_loop header_cache chain_poller fuel c p2 [] with
              | none => simp [Except.map]
              | some r => cases r with
                | error e => simp [Except.map]
                | ok t => simp [Except.map]
        · simp only [if_neg h3]
          cases hl2 : look_up_previous_header header_cache chain_poller c with
          | error e => simp [Except.map]
          | ok c2 =>
            simp only
            rw [ih c2 p (s ++ [ForkStep.ConnectBlock c]),
              ih c2 p (([] : List ForkStep) ++ [ForkStep.ConnectBlock c])]
            cases hres : find_fork_loop header_cache chain_poller fuel c2 p [] with
            | none => simp [Except.map]
            | some r => cases r with
              | error e => simp [Except.map]
              | ok t => simp [Except.map]

/-- Decompose a successful run with non-empty accumulator into the
accumulator and the run from the empty accumulator. -/
theorem find_fork_loop_shift (header_cache : Cache) (chain_poller : Poller)
    (fuel : Nat) (c p : ValidatedBlockHeader) (δ tail : List ForkStep)
    (h : find_fork_loop header_cache chain_poller fuel c p δ = some (Except.ok tail)) :
    ∃ tail', tail = δ ++ tail' ∧
      find_fork_loop header_cache chain_poller fuel c p [] = some (Except.ok tail') := by
  rw [find_fork_loop_append header_cache chain_poller fuel c p δ] at h
  cases hres : find_fork_loop header_cache chain_poller fuel c p [] with
  | none => rw [hres] at h; simp at h
  | some r =>
    cases r with
    | error e => rw [hres] at h; simp [Except.map] at h
    | ok t =>
      rw [hres] at h
      simp only [Option.map_some', Except.map, Option.some.injEq, Except.ok.injEq] at h
      exact ⟨t, h.symm, rfl⟩

/-- Recompose: a successful run from the empty accumulator yields the run
with any accumulator prepended. -/
theorem find_fork_loop_unshift (header_cache : Cache) (chain_poller : Poller)
    (fuel : Nat) (c p : ValidatedBlockHeader) (δ tail : List ForkStep)
    (h : find_fork_loop header_cache chain_poller fuel c p [] = some (Except.ok tail)) :
    find_fork_loop header_cache chain_poller fuel c p δ = some (Except.ok (δ ++ tail)) := by
  rw [find_fork_loop_append header_cache chain_poller fuel c p δ, h]
  rfl

/-- Structure of a successful fork-discovery plan: a run of
Disconnect/Connect steps ending either in a lone `ConnectBlock` (the
parent fast path) or in `DisconnectBlock previous, ConnectBlock current,
ForkPoint fork_point` (the chain-fork fast path, whose fork point came
from a successful lookup of the final disconnected header). -/
theorem find_fork_loop_shape (header_cache : Cache) (chain_poller : Poller) :
    ∀ (fuel : Nat) (c p : ValidatedBlockHeader) (tail : List ForkStep),
    find_fork_loop header_cache chain_poller fuel c p [] = some (Except.ok tail) →
    (forksOf tail = [] ∧ ∃ body cl, tail = body ++ [ForkStep.ConnectBlock cl]) ∨
    (∃ body pl cl f, tail = body ++ [ForkStep.DisconnectBlock pl,
        ForkStep.ConnectBlock cl, ForkStep.ForkPoint f] ∧ forksOf body = [] ∧
      look_up_previous_header header_cache chain_poller pl = Except.ok f) := by
  intro fuel
  induction fuel with
  | zero => intro c p tail h; exact absurd h (by simp [find_fork_loop])
  | succ fuel ih =>
    intro c p tail h
    rw [find_fork_loop] at h
    by_cases h1 : c.height = p.height + 1 ∧ c.header.prev_blockhash = p.block_hash
    · rw [if_pos h1] at h
      simp only [Option.some.injEq, Except.ok.injEq] at h
      left
      refine ⟨?_, [], c, h.symm⟩
      subst h
      simp [forksOf, stepFork]
    · rw [if_neg h1] at h
      by_cases h2 : c.header.prev_blockhash = p.header.prev_blockhash
      · rw [if_pos h2] at h
        cases hl : look_up_previous_header header_cache chain_poller p with
        | error e => rw [hl] at h; simp at h
        | ok fp =>
          rw [hl] at h
          simp only [Option.some.injEq, Except.ok.injEq] at h
          right
          exact ⟨[], p, c, fp, h.symm, rfl, hl⟩
      · rw [if_neg h2] at h
        by_cases h3 : c.height ≤ p.height
        · rw [if_pos h3] at h
          cases hl : look_up_previous_header header_cache chain_poller p with
          | error e => rw [hl] at h; simp at h
          | ok p2 =>
            rw [hl] at h
            simp only at h
            by_cases h4 : c.height ≥ p.height
            · rw [if_pos h4] at h
              cases hl2 : look_up_previous_header header_cache chain_poller c with
              | error e => rw [hl2] at h; simp at h
              | ok c2 =>
                rw [hl2] at h
                simp only at h
                obtain ⟨tail', rfl, hrec⟩ :=
                  find_fork_loop_shift header_cache chain_poller fuel c2 p2 _ _ h
                rcases ih c2 p2 tail' hrec with ⟨hforks, body, cl, rfl⟩ |
                    ⟨body, pl, cl, f, rfl, hforks, hlk⟩
                · left
                  constructor
                  · simp [forksOf, stepFork] at hforks ⊢
                    exact hforks
                  · exact ⟨ForkStep.DisconnectBlock p :: ForkStep.ConnectBlock c :: body, cl, by simp⟩
                · right
                  refine ⟨ForkStep.DisconnectBlock p :: ForkStep.ConnectBlock c :: body, pl, cl, f, by simp, ?_, hlk⟩
                  simp [forksOf, stepFork] at hforks ⊢
                  exact hforks
            · rw [if_neg h4] at h
              obtain ⟨tail', rfl, hrec⟩ :=
                find_fork_loop_shift header_cache chain_poller fuel c p2 _ _ h
              rcases ih c p2 tail' hrec with ⟨hforks, body, cl, rfl⟩ |
                  ⟨body, pl, cl, f, rfl, hforks, hlk⟩
              · left
                constructor
                · simp [forksOf, stepFork] at hforks ⊢
                  exact hforks
                · exact ⟨ForkStep.DisconnectBlock p :: body, cl, by simp⟩
              · right
                refine ⟨ForkStep.DisconnectBlock p :: body, pl, cl, f, by simp, ?_, hlk⟩
                simp [forksOf, stepFork] at hforks ⊢
                exact hforks
        · rw [if_neg h3] at h
          cases hl2 : look_up_previous_header header_cache chain_poller c with
          | error e => rw [hl2] at h; simp at h
          | ok c2 =>
            rw [hl2] at h
            simp only at h
            obtain ⟨tail', rfl, hrec⟩ :=
              find_fork_loop_shift header_cache chain_poller fuel c2 p _ _ h
            rcases ih c2 p tail' hrec with ⟨hforks, body, cl, rfl⟩ |
                ⟨body, pl, cl, f, rfl, hforks, hlk⟩
            · left
              constructor
              · simp [forksOf, stepFork] at hforks ⊢
                exact hforks
              · exact ⟨ForkStep.ConnectBlock c :: body, cl, by simp⟩
            · right
              refine ⟨ForkStep.ConnectBlock c :: body, pl, cl, f, by simp, ?_, hlk⟩
              simp [forksOf, stepFork] at hforks ⊢
              exact hforks

/-- Under the parent-lookup height contract, a successful plan lists its
`DisconnectBlock` headers in strictly descending height starting no higher
than the old tip, and its `ConnectBlock` headers in strictly descending
height starting no higher than the new tip. -/
theorem find_fork_loop_heights (header_cache : Cache) (chain_poller : Poller)
    (hdec : LookupDecrements header_cache chain_poller) :
    ∀ (fuel : Nat) (c p : ValidatedBlockHeader) (tail : List ForkStep),
    find_fork_loop header_cache chain_poller fuel c p [] = some (Except.ok tail) →
    List.Chain' (· > ·)
        ((p.height + 1) :: (discsOf tail).map ValidatedBlockHeader.height) ∧
    List.Chain' (· > ·)
        ((c.height + 1) :: (connsOf tail).map ValidatedBlockHeader.height) := by
  intro fuel
  induction fuel with
  | zero => intro c p tail h; exact absurd h (by simp [find_fork_loop])
  | succ fuel ih =>
    intro c p tail h
    rw [find_fork_loop] at h
    by_cases h1 : c.height = p.height + 1 ∧ c.header.prev_blockhash = p.block_hash
    · rw [if_pos h1] at h
      simp only [Option.some.injEq, Except.ok.injEq] at h
      subst h
      simp [discsOf, connsOf, stepDisc, stepConn]
    · rw [if_neg h1] at h
      by_cases h2 : c.header.prev_blockhash = p.header.prev_blockhash
      · rw [if_pos h2] at h
        cases hl : look_up_previous_header header_cache chain_poller p with
        | error e => rw [hl] at h; simp at h
        | ok fp =>
          rw [hl] at h
          simp only [Option.some.injEq, Except.ok.injEq] at h
          subst h
          simp [discsOf, connsOf, stepDisc, stepConn, stepFork]
      · rw [if_neg h2] at h
        by_cases h3 : c.height ≤ p.height
        · rw [if_pos h3] at h
          cases hl : look_up_previous_header header_cache chain_poller p with
          | error e => rw [hl] at h; simp at h
          | ok p2 =>
            rw [hl] at h
            simp only at h
            have hp2 : p2.height + 1 = p.height := hdec p p2 hl
            by_cases h4 : c.height ≥ p.height
            · rw [if_pos h4] at h
              cases hl2 : look_up_previous_header header_cache chain_poller c with
              | error e => rw [hl2] at h; simp at h
              | ok c2 =>
                rw [hl2] at h
                simp only at h
                have hc2 : c2.height + 1 = c.height := hdec c c2 hl2
                obtain ⟨tail', rfl, hrec⟩ :=
                  find_fork_loop_shift header_cache chain_poller fuel c2 p2 _ _ h
                obtain ⟨ihd, ihc⟩ := ih c2 p2 tail' hrec
                rw [hp2] at ihd
                simp [hc2, stepDisc, stepConn] at ihc
                constructor
                · simpa [discsOf, connsOf, stepDisc, stepConn, List.chain'_cons]
                    using ihd
                · simpa [discsOf, connsOf, stepDisc, stepConn, List.chain'_cons]
                    using ihc
            · rw [if_neg h4] at h
              obtain ⟨tail', rfl, hrec⟩ :=
                find_fork_loop_shift header_cache chain_poller fuel c p2 _ _ h
              obtain ⟨ihd, ihc⟩ := ih c p2 tail' hrec
              rw [hp2] at ihd
              constructor
              · simpa [discsOf, connsOf, stepDisc, stepConn, List.chain'_cons]
                  using ihd
              · simpa [discsOf, connsOf, stepDisc, stepConn] using ihc
        · rw [if_neg h3] at h
          cases hl2 : look_up_previous_header header_cache chain_poller c with
          | error e => rw [hl2] at h; simp at h
          | ok c2 =>
            rw [hl2] at h
            simp only at h
            have hc2 : c2.height + 1 = c.height := hdec c c2 hl2
            obtain ⟨tail', rfl, hrec⟩ :=
              find_fork_loop_shift header_cache chain_poller fuel c2 p _ _ h
            obtain ⟨ihd, ihc⟩ := ih c2 p tail' hrec
            simp [hc2, stepDisc, stepConn] at ihc
            constructor
            · simpa [discsOf, connsOf, stepDisc, stepConn] using ihd
            · simpa [discsOf, connsOf, stepDisc, stepConn, List.chain'_cons]
                using ihc

/-- Under the parent-lookup height contract, once the walk reaches a state
where the new-chain pointer is not above the old-chain pointer, the run can
only exit through the chain-fork fast path: the plan holds a `ForkPoint`. -/
theorem find_fork_loop_fork_of_le (header_cache : Cache) (chain_poller : Poller)
    (hdec : LookupDecrements header_cache chain_poller) :
    ∀ (fuel : Nat) (c p : ValidatedBlockHeader) (tail : List ForkStep),
    find_fork_loop header_cache chain_poller fuel c p [] = some (Except.ok tail) →
    c.height ≤ p.height → forksOf tail ≠ [] := by
  intro fuel
  induction fuel with
  | zero => intro c p tail h; exact absurd h (by simp [find_fork_loop])
  | succ fuel ih =>
    intro c p tail h hle
    rw [find_fork_loop] at h
    by_cases h1 : c.height = p.height + 1 ∧ c.header.prev_blockhash = p.block_hash
    · exact absurd h1.1 (by omega)
    · rw [if_neg h1] at h
      by_cases h2 : c.header.prev_blockhash = p.header.prev_blockhash
      · rw [if_pos h2] at h
        cases hl : look_up_previous_header header_cache chain_poller p with
        | error e => rw [hl] at h; simp at h
        | ok fp =>
          rw [hl] at h
          simp only [Option.some.injEq, Except.ok.injEq] at h
          subst h
          simp [forksOf, stepFork]
      · rw [if_neg h2] at h
        rw [if_pos hle] at h
        cases hl : look_up_previous_header header_cache chain_poller p with
        | error e => rw [hl] at h; simp at h
        | ok p2 =>
          rw [hl] at h
          simp only at h
          have hp2 : p2.height + 1 = p.height := hdec p p2 hl
          by_cases h4 : c.height ≥ p.height
          · rw [if_pos h4] at h
            cases hl2 : look_up_previous_header header_cache chain_poller c with
            | error e => rw [hl2] at h; simp at h
            | ok c2 =>
              rw [hl2] at h
              simp only at h
              have hc2 : c2.height + 1 = c.height := hdec c c2 hl2
              obtain ⟨tail', rfl, hrec⟩ :=
                find_fork_loop_shift header_cache chain_poller fuel c2 p2 _ _ h
              have := ih c2 p2 tail' hrec (by omega)
              simpa [forksOf, stepFork] using this
          · rw [if_neg h4] at h
            obtain ⟨tail', rfl, hrec⟩ :=
              find_fork_loop_shift header_cache chain_poller fuel c p2 _ _ h
            have := ih c p2 tail' hrec (by omega)
            simpa [forksOf, stepFork] using this

/-- Under the parent-lookup height contract, a successful plan with no
`ForkPoint` has no `DisconnectBlock` either. -/
theorem find_fork_loop_nofork_nodisc (header_cache : Cache) (chain_poller : Poller)
    (hdec : LookupDecrements header_cache chain_poller) :
    ∀ (fuel : Nat) (c p : ValidatedBlockHeader) (tail : List ForkStep),
    find_fork_loop header_cache chain_poller fuel c p [] = some (Except.ok tail) →
    forksOf tail = [] → discsOf tail = [] := by
  intro fuel
  induction fuel with
  | zero => intro c p tail h; exact absurd h (by simp [find_fork_loop])
  | succ fuel ih =>
    intro c p tail h hforks
    by_cases hle : c.height ≤ p.height
    · exact absurd hforks
        (find_fork_loop_fork_of_le header_cache chain_poller hdec _ c p tail h hle)
    · rw [find_fork_loop] at h
      by_cases h1 : c.height = p.height + 1 ∧ c.header.prev_blockhash = p.block_hash
      · rw [if_pos h1] at h
        simp only [Option.some.injEq, Except.ok.injEq] at h
        subst h
        simp [discsOf, stepDisc]
      · rw [if_neg h1] at h
        by_cases h2 : c.header.prev_blockhash = p.header.prev_blockhash
        · rw [if_pos h2] at h
          cases hl : look_up_previous_header header_cache chain_poller p with
          | error e => rw [hl] at h; simp at h
          | ok fp =>
            rw [hl] at h
            simp only [Option.some.injEq, Except.ok.injEq] at h
            subst h
            simp [forksOf, stepFork] at hforks
        · rw [if_neg h2, if_neg hle] at h
          cases hl2 : look_up_previous_header header_cache chain_poller c with
          | error e => rw [hl2] at h; simp at h
          | ok c2 =>
            rw [hl2] at h
            simp only at h
            obtain ⟨tail', rfl, hrec⟩ :=
              find_fork_loop_shift header_cache chain_poller fuel c2 p _ _ h
            simp only [forksOf, List.filterMap_append, List.filterMap_cons,
              List.filterMap_nil, stepFork] at hforks
            have := ih c2 p tail' hrec (by simpa [forksOf] using hforks)
            simpa [discsOf, stepDisc] using this

/-- Under the parent-lookup height contract, the loop completes (with a plan
or an error) within `current.height + previous.height + 1` iterations: each
iteration either exits or strictly decreases the height sum. -/
theorem find_fork_loop_terminates (header_cache : Cache) (chain_poller : Poller)
    (hdec : LookupDecrements header_cache chain_poller) :
    ∀ (fuel : Nat) (c p : ValidatedBlockHeader) (steps : List ForkStep),
    c.height + p.height < fuel →
    find_fork_loop header_cache chain_poller fuel c p steps ≠ none := by
  intro fuel
  induction fuel with
  | zero => intro c p steps hlt; omega
  | succ fuel ih =>
    intro c p steps hlt
    rw [find_fork_loop]
    by_cases h1 : c.height = p.height + 1 ∧ c.header.prev_blockhash = p.block_hash
    · simp [h1]
    · rw [if_neg h1]
      by_cases h2 : c.header.prev_blockhash = p.header.prev_blockhash
      · rw [if_pos h2]
        cases hl : look_up_previous_header header_cache chain_poller p with
        | error e => simp
        | ok fp => simp
      · rw [if_neg h2]
        by_cases h3 : c.height ≤ p.height
        · rw [if_pos h3]
          cases hl : look_up_previous_header header_cache chain_poller p with
          | error e => simp
          | ok p2 =>
            simp only
            have hp2 : p2.height + 1 = p.height := hdec p p2 hl
            by_cases h4 : c.height ≥ p.height
            · rw [if_pos h4]
              cases hl2 : look_up_previous_header header_cache chain_poller c with
              | error e => simp
              | ok c2 =>
                simp only
                have hc2 : c2.height + 1 = c.height := hdec c c2 hl2
                exact ih c2 p2 _ (by omega)
            · rw [if_neg h4]
              exact ih c p2 _ (by omega)
        · rw [if_neg h3]
          cases hl2 : look_up_previous_header header_cache chain_poller c with
          | error e => simp
          | ok c2 =>
            simp only
            have hc2 : c2.height + 1 = c.height := hdec c c2 hl2
            exact ih c2 p _ (by omega)

/-! ### Lemmas about `optLast` -/

theorem optLast_nil {α : Type} (d : Option α) : optLast [] d = d := rfl

theorem optLast_cons {α : Type} (x : α) (xs : List α) (d : Option α) :
    optLast (x :: xs) d = optLast xs (some x) := rfl

theorem optLast_append {α : Type} (xs ys : List α) (d : Option α) :
    optLast (xs ++ ys) d = optLast ys (optLast xs d) := by
  induction xs generalizing d with
  | nil => rfl
  | cons x xs ih => rw [List.cons_append, optLast_cons, optLast_cons, ih]

theorem optLast_eq_getLast? {α : Type} (xs : List α) :
    ∀ d, optLast xs d = (xs.getLast?).elim d some := by
  induction xs with
  | nil => intro d; rfl
  | cons a xs ih =>
    intro d
    cases xs with
    | nil => rfl
    | cons b xs' =>
      rw [optLast_cons, ih (some a), List.getLast?_cons_cons]
      cases hy : (b :: xs').getLast? with
      | none => exact absurd hy (by simp)
      | some y => rfl

theorem optLast_none_isSome {α : Type} (xs : List α) :
    (optLast xs none).isSome = true ↔ xs ≠ [] := by
  rw [optLast_eq_getLast?]
  cases hy : xs.getLast? with
  | none =>
    simp only [Option.elim, Option.isSome_none]
    constructor
    · intro h; exact absurd h (by simp)
    · intro h
      rw [List.getLast?_eq_none_iff] at hy
      exact absurd hy h
  | some y =>
    simp only [Option.elim, Option.isSome_some, true_iff]
    intro hnil
    subst hnil
    simp at hy

theorem optLast_none_mem {α : Type} {xs : List α} {v : α}
    (h : optLast xs none = some v) : v ∈ xs := by
  rw [optLast_eq_getLast?] at h
  cases hy : xs.getLast? with
  | none => rw [hy] at h; simp [Option.elim] at h
  | some y =>
    rw [hy] at h
    simp only [Option.elim, Option.some.injEq] at h
    subst h
    obtain ⟨hne, heq⟩ := List.mem_getLast?_eq_getLast (Option.mem_def.mpr hy)
    rw [heq]
    exact List.getLast_mem hne

/-! ### Characterization of the disconnect pass -/

theorem disconnect_pass_cons_disc_hit (rest : List ForkStep) (cache : Cache)
    (ldt : Option Nat) (nt : Option ValidatedBlockHeader) (cbs : List Callback)
    (header : ValidatedBlockHeader)
    (hg : Cache.get cache header.block_hash = some header) :
    disconnect_pass (ForkStep.DisconnectBlock header :: rest) cache ldt nt cbs =
      disconnect_pass rest (Cache.remove cache header.block_hash)
        (some header.header.prev_blockhash) nt
        (cbs ++ [Callback.block_disconnected header]) := by
  have h0 : disconnect_pass (ForkStep.DisconnectBlock header :: rest) cache ldt nt cbs
      = match Cache.get cache header.block_hash with
        | some cached_header =>
            if cached_header = header then
              disconnect_pass rest (Cache.remove cache header.block_hash)
                (some header.header.prev_blockhash) nt
                (cbs ++ [Callback.block_disconnected header])
            else ⟨true, Cache.remove cache header.block_hash, ldt, nt, cbs⟩
        | none =>
            disconnect_pass rest cache (some header.header.prev_blockhash) nt
              (cbs ++ [Callback.block_disconnected header]) := rfl
  rw [h0, hg]
  exact if_pos rfl

theorem disconnect_pass_cons_disc_bad (rest : List ForkStep) (cache : Cache)
    (ldt : Option Nat) (nt : Option ValidatedBlockHeader) (cbs : List Callback)
    (header cached_header : ValidatedBlockHeader)
    (hg : Cache.get cache header.block_hash = some cached_header)
    (hne : cached_header ≠ header) :
    disconnect_pass (ForkStep.DisconnectBlock header :: rest) cache ldt nt cbs =
      ⟨true, Cache.remove cache header.block_hash, ldt, nt, cbs⟩ := by
  have h0 : disconnect_pass (ForkStep.DisconnectBlock header :: rest) cache ldt nt cbs
      = match Cache.get cache header.block_hash with
        | some cached_header =>
            if cached_header = header then
              disconnect_pass rest (Cache.remove cache header.block_hash)
                (some header.header.prev_blockhash) nt
                (cbs ++ [Callback.block_disconnected header])
            else ⟨true, Cache.remove cache header.block_hash, ldt, nt, cbs⟩
        | none =>
            disconnect_pass rest cache (some header.header.prev_blockhash) nt
              (cbs ++ [Callback.block_disconnected header]) := rfl
  rw [h0, hg]
  exact if_neg hne

theorem disconnect_pass_cons_disc_miss (rest : List ForkStep) (cache : Cache)
    (ldt : Option Nat) (nt : Option ValidatedBlockHeader) (cbs : List Callback)
    (header : ValidatedBlockHeader)
    (hg : Cache.get cache header.block_hash = none) :
    disconnect_pass (ForkStep.DisconnectBlock header :: rest) cache ldt nt cbs =
      disconnect_pass rest cache (some header.header.prev_blockhash) nt
        (cbs ++ [Callback.block_disconnected header]) := by
  have h0 : disconnect_pass (ForkStep.DisconnectBlock header :: rest) cache ldt nt cbs
      = match Cache.get cache header.block_hash with
        | some cached_header =>
            if cached_header = header then
              disconnect_pass rest (Cache.remove cache header.block_hash)
                (some header.header.prev_blockhash) nt
                (cbs ++ [Callback.block_disconnected header])
            else ⟨true, Cache.remove cache header.block_hash, ldt, nt, cbs⟩
        | none =>
            disconnect_pass rest cache (some header.header.prev_blockhash) nt
              (cbs ++ [Callback.block_disconnected header]) := rfl
  rw [h0, hg]

theorem disconnect_pass_cons_fork (rest : List ForkStep) (cache : Cache)
    (ldt : Option Nat) (nt : Option ValidatedBlockHeader) (cbs : List Callback)
    (header : ValidatedBlockHeader) :
    disconnect_pass (ForkStep.ForkPoint header :: rest) cache ldt nt cbs =
      disconnect_pass rest cache ldt (some header) cbs := rfl

theorem disconnect_pass_cons_conn (rest : List ForkStep) (cache : Cache)
    (ldt : Option Nat) (nt : Option ValidatedBlockHeader) (cbs : List Callback)
    (header : ValidatedBlockHeader) :
    disconnect_pass (ForkStep.ConnectBlock header :: rest) cache ldt nt cbs =
      disconnect_pass rest cache ldt nt cbs := rfl

/-- What the disconnect pass computes: the callbacks are those of a
processed front of the plan (all of it when no assertion fired); cache keys
other than disconnected hashes are untouched; and when no assertion fired,
`last_disconnect_tip` holds the `prev_blockhash` of the last disconnected
header, `new_tip` holds the last fork point, and every disconnected hash is
absent from the cache. -/
theorem disconnect_pass_spec :
    ∀ (l : List ForkStep) (cache : Cache) (ldt : Option Nat)
      (nt : Option ValidatedBlockHeader) (cbs : List Callback),
    (∃ l1 l2, l = l1 ++ l2 ∧
      (disconnect_pass l cache ldt nt cbs).callbacks = cbs ++ discCallbacks l1 ∧
      ((disconnect_pass l cache ldt nt cbs).panicked = false → l2 = [])) ∧
    (∀ k, k ∉ (discsOf l).map ValidatedBlockHeader.block_hash →
      (disconnect_pass l cache ldt nt cbs).header_cache k = cache k) ∧
    ((disconnect_pass l cache ldt nt cbs).panicked = false →
      (disconnect_pass l cache ldt nt cbs).last_disconnect_tip
        = optLast ((discsOf l).map (fun h => h.header.prev_blockhash)) ldt ∧
      (disconnect_pass l cache ldt nt cbs).new_tip = optLast (forksOf l) nt ∧
      ∀ k, k ∈ (discsOf l).map ValidatedBlockHeader.block_hash →
        (disconnect_pass l cache ldt nt cbs).header_cache k = none) := by
  intro l
  induction l with
  | nil =>
    intro cache ldt nt cbs
    refine ⟨⟨[], [], rfl, by simp [disconnect_pass, discCallbacks, discsOf], fun _ => rfl⟩,
      fun k _ => rfl, fun _ => ⟨rfl, rfl, by simp [discsOf]⟩⟩
  | cons s rest ih =>
    intro cache ldt nt cbs
    cases s with
    | DisconnectBlock header =>
      cases hg : Cache.get cache header.block_hash with
      | some cached_header =>
        by_cases heq : cached_header = header
        · subst heq
          rw [disconnect_pass_cons_disc_hit rest cache ldt nt cbs cached_header hg]
          obtain ⟨⟨l1, l2, hsplit, hcbs, hdone⟩, hframe, hrest⟩ :=
            ih (Cache.remove cache cached_header.block_hash)
              (some cached_header.header.prev_blockhash) nt
              (cbs ++ [Callback.block_disconnected cached_header])
          refine ⟨⟨ForkStep.DisconnectBlock cached_header :: l1, l2, by simp [hsplit],
            ?_, hdone⟩, ?_, ?_⟩
          · rw [hcbs]
            simp [discCallbacks, discsOf, stepDisc]
          · intro k hk
            simp only [discsOf, List.filterMap_cons, stepDisc, List.map_cons,
              List.mem_cons, not_or] at hk
            have h1 := hframe k (by
              intro hmem
              exact hk.2 (by simpa [discsOf] using hmem))
            rw [h1]
            simp only [Cache.remove]
            rw [if_neg hk.1]
          · intro hpan
            obtain ⟨hldt, hnt, habs⟩ := hrest hpan
            refine ⟨?_, ?_, ?_⟩
            · rw [hldt]
              simp [discsOf, stepDisc, optLast_cons]
            · rw [hnt]
              simp [forksOf, stepFork]
            · intro k hk
              simp only [discsOf, List.filterMap_cons, stepDisc, List.map_cons,
                List.mem_cons] at hk
              by_cases hmem : k ∈ (discsOf rest).map ValidatedBlockHeader.block_hash
              · exact habs k (by simpa [discsOf] using hmem)
              · rcases hk with hk | hk
                · rw [hframe k (by simpa [discsOf] using hmem)]
                  simp [Cache.remove, hk]
                · exact absurd (by simpa [discsOf] using hk) hmem
        · rw [disconnect_pass_cons_disc_bad rest cache ldt nt cbs header cached_header hg heq]
          refine ⟨⟨[], ForkStep.DisconnectBlock header :: rest, rfl,
            by simp [discCallbacks, discsOf], by simp⟩, ?_, by simp⟩
          intro k hk
          simp only [discsOf, List.filterMap_cons, stepDisc, List.map_cons,
            List.mem_cons, not_or] at hk
          simp [Cache.remove, hk.1]
      | none =>
        rw [disconnect_pass_cons_disc_miss rest cache ldt nt cbs header hg]
        obtain ⟨⟨l1, l2, hsplit, hcbs, hdone⟩, hframe, hrest⟩ :=
          ih cache (some header.header.prev_blockhash) nt
            (cbs ++ [Callback.block_disconnected header])
        refine ⟨⟨ForkStep.DisconnectBlock header :: l1, l2, by simp [hsplit],
          ?_, hdone⟩, ?_, ?_⟩
        · rw [hcbs]
          simp [discCallbacks, discsOf, stepDisc]
        · intro k hk
          simp only [discsOf, List.filterMap_cons, stepDisc, List.map_cons,
            List.mem_cons, not_or] at hk
          exact hframe k (by
            intro hmem
            exact hk.2 (by simpa [discsOf] using hmem))
        · intro hpan
          obtain ⟨hldt, hnt, habs⟩ := hrest hpan
          refine ⟨?_, ?_, ?_⟩
          · rw [hldt]
            simp [discsOf, stepDisc, optLast_cons]
          · rw [hnt]
            simp [forksOf, stepFork]
          · intro k hk
            simp only [discsOf, List.filterMap_cons, stepDisc, List.map_cons,
              List.mem_cons] at hk
            by_cases hmem : k ∈ (discsOf rest).map ValidatedBlockHeader.block_hash
            · exact habs k (by simpa [discsOf] using hmem)
            · rcases hk with hk | hk
              · rw [hframe k (by simpa [discsOf] using hmem), hk]
                exact hg
              · exact absurd (by simpa [discsOf] using hk) hmem
    | ForkPoint header =>
      rw [disconnect_pass_cons_fork rest cache ldt nt cbs header]
      obtain ⟨⟨l1, l2, hsplit, hcbs, hdone⟩, hframe, hrest⟩ :=
        ih cache ldt (some header) cbs
      refine ⟨⟨ForkStep.ForkPoint header :: l1, l2, by simp [hsplit], ?_, hdone⟩, ?_, ?_⟩
      · rw [hcbs]
        simp [discCallbacks, discsOf, stepDisc]
      · intro k hk
        exact hframe k (by simpa [discsOf, stepDisc] using hk)
      · intro hpan
        obtain ⟨hldt, hnt, habs⟩ := hrest hpan
        refine ⟨?_, ?_, ?_⟩
        · rw [hldt]
          simp [discsOf, stepDisc]
        · rw [hnt]
          simp [forksOf, stepFork, optLast_cons]
        · intro k hk
          exact habs k (by simpa [discsOf, stepDisc] using hk)
    | ConnectBlock header =>
      rw [disconnect_pass_cons_conn rest cache ldt nt cbs header]
      obtain ⟨⟨l1, l2, hsplit, hcbs, hdone⟩, hframe, hrest⟩ := ih cache ldt nt cbs
      refine ⟨⟨ForkStep.ConnectBlock header :: l1, l2, by simp [hsplit], ?_, hdone⟩, ?_, ?_⟩
      · rw [hcbs]
        simp [discCallbacks, discsOf, stepDisc]
      · intro k hk
        exact hframe k (by simpa [discsOf, stepDisc] using hk)
      · intro hpan
        obtain ⟨hldt, hnt, habs⟩ := hrest hpan
        refine ⟨?_, ?_, ?_⟩
        · rw [hldt]
          simp [discsOf, stepDisc]
        · rw [hnt]
          simp [forksOf, stepFork]
        · intro k hk
          exact habs k (by simpa [discsOf, stepDisc] using hk)

/-! ### Characterization of the connect pass -/

theorem connect_pass_cons_conn_fail (chain_poller : Poller) (rest : List ForkStep)
    (cache : Cache) (nt : Option ValidatedBlockHeader) (cbs : List Callback)
    (header : ValidatedBlockHeader) (e : BlockSourceError)
    (hf : chain_poller.fetch_block header = Except.error e) :
    connect_pass chain_poller (ForkStep.ConnectBlock header :: rest) cache nt cbs =
      (SyncOutcome.fail e nt, cache, cbs) := by
  have h0 : connect_pass chain_poller (ForkStep.ConnectBlock header :: rest) cache nt cbs
      = match chain_poller.fetch_block header with
        | Except.error e => (SyncOutcome.fail e nt, cache, cbs)
        | Except.ok block =>
            connect_pass chain_poller rest (Cache.insert cache header.block_hash header)
              (some header) (cbs ++ [Callback.block_connected block header]) := rfl
  rw [h0, hf]

theorem connect_pass_cons_conn_ok (chain_poller : Poller) (rest : List ForkStep)
    (cache : Cache) (nt : Option ValidatedBlockHeader) (cbs : List Callback)
    (header : ValidatedBlockHeader) (block : Block)
    (hf : chain_poller.fetch_block header = Except.ok block) :
    connect_pass chain_poller (ForkStep.ConnectBlock header :: rest) cache nt cbs =
      connect_pass chain_poller rest (Cache.insert cache header.block_hash header)
        (some header) (cbs ++ [Callback.block_connected block header]) := by
  have h0 : connect_pass chain_poller (ForkStep.ConnectBlock header :: rest) cache nt cbs
      = match chain_poller.fetch_block header with
        | Except.error e => (SyncOutcome.fail e nt, cache, cbs)
        | Except.ok block =>
            connect_pass chain_poller rest (Cache.insert cache header.block_hash header)
              (some header) (cbs ++ [Callback.block_connected block header]) := rfl
  rw [h0, hf]

theorem connect_pass_cons_disc (chain_poller : Poller) (rest : List ForkStep)
    (cache : Cache) (nt : Option ValidatedBlockHeader) (cbs : List Callback)
    (header : ValidatedBlockHeader) :
    connect_pass chain_poller (ForkStep.DisconnectBlock header :: rest) cache nt cbs =
      connect_pass chain_poller rest cache nt cbs := rfl

theorem connect_pass_cons_fork (chain_poller : Poller) (rest : List ForkStep)
    (cache : Cache) (nt : Option ValidatedBlockHeader) (cbs : List Callback)
    (header : ValidatedBlockHeader) :
    connect_pass chain_poller (ForkStep.ForkPoint header :: rest) cache nt cbs =
      connect_pass chain_poller rest cache nt cbs := rfl

/-- What the connect pass computes: it processes a front `l1` of the plan
whose connect entries all fetched successfully — inserting them into the
cache and announcing them in order — and then either finishes (`Ok`) with
the whole plan processed, or stops at the first connect entry whose fetch
fails, returning that error paired with the most recently connected header
(or the incoming `new_tip` when none was connected yet). -/
theorem connect_pass_spec (chain_poller : Poller) :
    ∀ (l : List ForkStep) (cache : Cache) (nt : Option ValidatedBlockHeader)
      (cbs : List Callback) (out : SyncOutcome) (cache' : Cache) (cbs' : List Callback),
    connect_pass chain_poller l cache nt cbs = (out, cache', cbs') →
    ∃ l1 l2, l = l1 ++ l2 ∧
      (∀ h ∈ connsOf l1, ∃ b, chain_poller.fetch_block h = Except.ok b) ∧
      cache' = insertAll cache (connsOf l1) ∧
      cbs' = cbs ++ connCallbacks chain_poller l1 ∧
      ((out = SyncOutcome.ok ∧ l2 = []) ∨
       (∃ e hb l2', l2 = ForkStep.ConnectBlock hb :: l2' ∧
         chain_poller.fetch_block hb = Except.error e ∧
         out = SyncOutcome.fail e (optLast (connsOf l1) nt))) := by
  intro l
  induction l with
  | nil =>
    intro cache nt cbs out cache' cbs' h
    rw [show connect_pass chain_poller [] cache nt cbs = (SyncOutcome.ok, cache, cbs)
      from rfl] at h
    injection h with h1 h2
    injection h2 with h2 h3
    subst h1
    subst h2
    subst h3
    exact ⟨[], [], rfl, by simp [connsOf], by simp [insertAll, connsOf],
      by simp [connCallbacks], Or.inl ⟨rfl, rfl⟩⟩
  | cons s rest ih =>
    intro cache nt cbs out cache' cbs' h
    cases s with
    | ConnectBlock header =>
      cases hf : chain_poller.fetch_block header with
      | error e =>
        rw [connect_pass_cons_conn_fail chain_poller rest cache nt cbs header e hf] at h
        injection h with h1 h2
        injection h2 with h2 h3
        subst h1
        subst h2
        subst h3
        refine ⟨[], ForkStep.ConnectBlock header :: rest, rfl, by simp [connsOf],
          by simp [insertAll, connsOf], by simp [connCallbacks],
          Or.inr ⟨e, header, rest, rfl, hf, ?_⟩⟩
        simp [connsOf, optLast_nil]
      | ok block =>
        rw [connect_pass_cons_conn_ok chain_poller rest cache nt cbs header block hf] at h
        obtain ⟨l1, l2, hsp, hfetch, hcache, hcbs, hout⟩ := ih _ _ _ _ _ _ h
        refine ⟨ForkStep.ConnectBlock header :: l1, l2, by simp [hsp], ?_, ?_, ?_, ?_⟩
        · intro x hx
          have hx' : x = header ∨ x ∈ connsOf l1 := by
            simpa [connsOf, stepConn] using hx
          rcases hx' with rfl | hx'
          · exact ⟨block, hf⟩
          · exact hfetch x hx'
        · rw [hcache]
          simp [connsOf, stepConn, insertAll]
        · rw [hcbs]
          simp [connCallbacks, hf]
        · rcases hout with ⟨hok, rfl⟩ | ⟨e, hb, l2', rfl, hferr, hfail⟩
          · exact Or.inl ⟨hok, rfl⟩
          · refine Or.inr ⟨e, hb, l2', rfl, hferr, ?_⟩
            rw [hfail]
            simp [connsOf, stepConn, optLast_cons]
    | DisconnectBlock header =>
      rw [connect_pass_cons_disc chain_poller rest cache nt cbs header] at h
      obtain ⟨l1, l2, hsp, hfetch, hcache, hcbs, hout⟩ := ih _ _ _ _ _ _ h
      refine ⟨ForkStep.DisconnectBlock header :: l1, l2, by simp [hsp], ?_, ?_, ?_, ?_⟩
      · intro x hx
        exact hfetch x (by simpa [connsOf, stepConn] using hx)
      · rw [hcache]
        simp [connsOf, stepConn, insertAll]
      · rw [hcbs]
        simp [connCallbacks]
      · rcases hout with ⟨hok, rfl⟩ | ⟨e, hb, l2', rfl, hferr, hfail⟩
        · exact Or.inl ⟨hok, rfl⟩
        · refine Or.inr ⟨e, hb, l2', rfl, hferr, ?_⟩
          rw [hfail]
          simp [connsOf, stepConn]
    | ForkPoint header =>
      rw [connect_pass_cons_fork chain_poller rest cache nt cbs header] at h
      obtain ⟨l1, l2, hsp, hfetch, hcache, hcbs, hout⟩ := ih _ _ _ _ _ _ h
      refine ⟨ForkStep.ForkPoint header :: l1, l2, by simp [hsp], ?_, ?_, ?_, ?_⟩
      · intro x hx
        exact hfetch x (by simpa [connsOf, stepConn] using hx)
      · rw [hcache]
        simp [connsOf, stepConn, insertAll]
      · rw [hcbs]
        simp [connCallbacks]
      · rcases hout with ⟨hok, rfl⟩ | ⟨e, hb, l2', rfl, hferr, hfail⟩
        · exact Or.inl ⟨hok, rfl⟩
        · refine Or.inr ⟨e, hb, l2', rfl, hferr, ?_⟩
          rw [hfail]
          simp [connsOf, stepConn]

/-! ### Unfolding `sync_listener` by `find_fork` outcome -/

theorem sync_listener_unfold_div (header_cache : Cache) (chain_poller : Poller)
    (fuel : Nat) (new_header old_header : ValidatedBlockHeader)
    (hff : find_fork header_cache chain_poller fuel new_header old_header = none) :
    sync_listener header_cache chain_poller fuel new_header old_header = none := by
  unfold sync_listener
  rw [hff]

theorem sync_listener_unfold_err (header_cache : Cache) (chain_poller : Poller)
    (fuel : Nat) (new_header old_header : ValidatedBlockHeader) (e : BlockSourceError)
    (hff : find_fork header_cache chain_poller fuel new_header old_header
      = some (Except.error e)) :
    sync_listener header_cache chain_poller fuel new_header old_header
      = some ⟨SyncOutcome.fail e none, header_cache, []⟩ := by
  unfold sync_listener
  rw [hff]

theorem sync_listener_unfold_ok (header_cache : Cache) (chain_poller : Poller)
    (fuel : Nat) (new_header old_header : ValidatedBlockHeader) (steps : List ForkStep)
    (hff : find_fork header_cache chain_poller fuel new_header old_header
      = some (Except.ok steps)) :
    sync_listener header_cache chain_poller fuel new_header old_header
      = (if (disconnect_pass steps header_cache none none []).panicked then
           some ⟨SyncOutcome.panicked,
             (disconnect_pass steps header_cache none none []).header_cache,
             (disconnect_pass steps header_cache none none []).callbacks⟩
         else if (disconnect_pass steps header_cache none none []).last_disconnect_tip.isSome
             ≠ (disconnect_pass steps header_cache none none []).new_tip.isSome then
           some ⟨SyncOutcome.panicked,
             (disconnect_pass steps header_cache none none []).header_cache,
             (disconnect_pass steps header_cache none none []).callbacks⟩
         else
           match connect_pass chain_poller steps.reverse
               (disconnect_pass steps header_cache none none []).header_cache
               (match (disconnect_pass steps header_cache none none []).new_tip with
                | some tip_header => some tip_header
                | none => some old_header)
               (disconnect_pass steps header_cache none none []).callbacks with
           | (outcome, cache2, cbs2) => some ⟨outcome, cache2, cbs2⟩) := by
  unfold sync_listener
  rw [hff]

/-! ### Callback-trace bookkeeping -/

theorem connectedHeaders_append (c1 c2 : List Callback) :
    connectedHeaders (c1 ++ c2) = connectedHeaders c1 ++ connectedHeaders c2 := by
  simp [connectedHeaders]

theorem disconnectedHeaders_append (c1 c2 : List Callback) :
    disconnectedHeaders (c1 ++ c2) = disconnectedHeaders c1 ++ disconnectedHeaders c2 := by
  simp [disconnectedHeaders]

theorem connectedHeaders_discCallbacks (l : List ForkStep) :
    connectedHeaders (discCallbacks l) = [] := by
  induction l with
  | nil => rfl
  | cons s rest ih =>
    cases s <;> simp [discCallbacks, discsOf, stepDisc, connectedHeaders] at ih ⊢

theorem disconnectedHeaders_discCallbacks (l : List ForkStep) :
    disconnectedHeaders (discCallbacks l) = discsOf l := by
  induction l with
  | nil => rfl
  | cons s rest ih =>
    cases s <;>
      simp [discCallbacks, discsOf, stepDisc, disconnectedHeaders] at ih ⊢ <;>
      simpa [disconnectedHeaders] using ih

theorem disconnectedHeaders_connCallbacks (chain_poller : Poller) (l : List ForkStep) :
    disconnectedHeaders (connCallbacks chain_poller l) = [] := by
  induction l with
  | nil => rfl
  | cons s rest ih =>
    cases s with
    | ConnectBlock h =>
      cases hf : chain_poller.fetch_block h with
      | error e => simpa [connCallbacks, hf] using ih
      | ok b => simpa [connCallbacks, hf, disconnectedHeaders] using ih
    | DisconnectBlock h => simpa [connCallbacks] using ih
    | ForkPoint h => simpa [connCallbacks] using ih

/-- When every connect entry of `l` fetches successfully, the connect pass
announces exactly the `ConnectBlock` headers of `l`, in order. -/
theorem connectedHeaders_connCallbacks (chain_poller : Poller) :
    ∀ (l : List ForkStep),
    (∀ h ∈ connsOf l, ∃ b, chain_poller.fetch_block h = Except.ok b) →
    connectedHeaders (connCallbacks chain_poller l) = connsOf l := by
  intro l
  induction l with
  | nil => intro _; rfl
  | cons s rest ih =>
    intro hall
    cases s with
    | ConnectBlock h =>
      obtain ⟨b, hb⟩ := hall h (by simp [connsOf, stepConn])
      have := ih (fun x hx => hall x (by simpa [connsOf, stepConn] using Or.inr hx))
      simp [connCallbacks, hb, connectedHeaders, connsOf, stepConn] at this ⊢
      simpa [connectedHeaders] using this
    | DisconnectBlock h =>
      have := ih (fun x hx => hall x (by simpa [connsOf, stepConn] using hx))
      simpa [connCallbacks, connsOf, stepConn] using this
    | ForkPoint h =>
      have := ih (fun x hx => hall x (by simpa [connsOf, stepConn] using hx))
      simpa [connCallbacks, connsOf, stepConn] using this

theorem connsOf_reverse (l : List ForkStep) : connsOf l.reverse = (connsOf l).reverse := by
  simp [connsOf, List.filterMap_reverse]

theorem discsOf_reverse (l : List ForkStep) : discsOf l.reverse = (discsOf l).reverse := by
  simp [discsOf, List.filterMap_reverse]

theorem connsOf_append (l1 l2 : List ForkStep) :
    connsOf (l1 ++ l2) = connsOf l1 ++ connsOf l2 := by
  simp [connsOf]

theorem discsOf_append (l1 l2 : List ForkStep) :
    discsOf (l1 ++ l2) = discsOf l1 ++ discsOf l2 := by
  simp [discsOf]

theorem forksOf_append (l1 l2 : List ForkStep) :
    forksOf (l1 ++ l2) = forksOf l1 ++ forksOf l2 := by
  simp [forksOf]

/-! ### Membership views and `insertAll` lemmas -/

theorem mem_discsOf (l : List ForkStep) (h : ValidatedBlockHeader) :
    h ∈ discsOf l ↔ ForkStep.DisconnectBlock h ∈ l := by
  simp only [discsOf, List.mem_filterMap]
  constructor
  · rintro ⟨s, hs, hsome⟩
    cases s <;> simp [stepDisc] at hsome
    exact hsome ▸ hs
  · intro hmem
    exact ⟨ForkStep.DisconnectBlock h, hmem, rfl⟩

theorem mem_connsOf (l : List ForkStep) (h : ValidatedBlockHeader) :
    h ∈ connsOf l ↔ ForkStep.ConnectBlock h ∈ l := by
  simp only [connsOf, List.mem_filterMap]
  constructor
  · rintro ⟨s, hs, hsome⟩
    cases s <;> simp [stepConn] at hsome
    exact hsome ▸ hs
  · intro hmem
    exact ⟨ForkStep.ConnectBlock h, hmem, rfl⟩

theorem mem_forksOf (l : List ForkStep) (h : ValidatedBlockHeader) :
    h ∈ forksOf l ↔ ForkStep.ForkPoint h ∈ l := by
  simp only [forksOf, List.mem_filterMap]
  constructor
  · rintro ⟨s, hs, hsome⟩
    cases s <;> simp [stepFork] at hsome
    exact hsome ▸ hs
  · intro hmem
    exact ⟨ForkStep.ForkPoint h, hmem, rfl⟩

theorem insertAll_frame :
    ∀ (hs : List ValidatedBlockHeader) (cache : Cache) (k : Nat),
    k ∉ hs.map ValidatedBlockHeader.block_hash → insertAll cache hs k = cache k := by
  intro hs
  induction hs with
  | nil => intro cache k _; rfl
  | cons h rest ih =>
    intro cache k hk
    simp only [List.map_cons, List.mem_cons, not_or] at hk
    rw [show insertAll cache (h :: rest) = insertAll (Cache.insert cache h.block_hash h) rest
      from rfl]
    rw [ih _ k hk.2]
    simp [Cache.insert, hk.1]

theorem insertAll_mem :
    ∀ (hs : List ValidatedBlockHeader) (cache : Cache) (h : ValidatedBlockHeader),
    (hs.map ValidatedBlockHeader.block_hash).Nodup → h ∈ hs →
    insertAll cache hs h.block_hash = some h := by
  intro hs
  induction hs with
  | nil => intro cache h _ hmem; simp at hmem
  | cons a rest ih =>
    intro cache h hnd hmem
    simp only [List.map_cons, List.nodup_cons] at hnd
    rw [show insertAll cache (a :: rest) = insertAll (Cache.insert cache a.block_hash a) rest
      from rfl]
    rcases List.mem_cons.mp hmem with rfl | hmem
    · rw [insertAll_frame rest _ h.block_hash hnd.1]
      simp [Cache.insert]
    · exact ih _ h hnd.2 hmem

/-! ### Shapes and heights of callback traces -/

theorem discCallbacks_all_disc (l : List ForkStep) :
    ∀ cb ∈ discCallbacks l, ∃ h, cb = Callback.block_disconnected h := by
  intro cb hcb
  simp only [discCallbacks, List.mem_map] at hcb
  obtain ⟨h, _, rfl⟩ := hcb
  exact ⟨h, rfl⟩

theorem connCallbacks_all_conn (chain_poller : Poller) (l : List ForkStep) :
    ∀ cb ∈ connCallbacks chain_poller l, ∃ b h, cb = Callback.block_connected b h := by
  intro cb hcb
  simp only [connCallbacks, List.mem_filterMap] at hcb
  obtain ⟨s, _, hsome⟩ := hcb
  cases s with
  | ConnectBlock h =>
    cases hf : chain_poller.fetch_block h with
    | error e => simp [hf] at hsome
    | ok b =>
      simp [hf] at hsome
      exact ⟨b, h, hsome.symm⟩
  | DisconnectBlock h => simp at hsome
  | ForkPoint h => simp at hsome

theorem heights_discCallbacks (l : List ForkStep) :
    (discCallbacks l).map Callback.height = (discsOf l).map ValidatedBlockHeader.height := by
  simp [discCallbacks, List.map_map]
  intro a _
  rfl

theorem heights_of_connects (cbs : List Callback)
    (hall : ∀ cb ∈ cbs, ∃ b h, cb = Callback.block_connected b h) :
    cbs.map Callback.height = (connectedHeaders cbs).map ValidatedBlockHeader.height := by
  induction cbs with
  | nil => rfl
  | cons cb rest ih =>
    obtain ⟨b, h, rfl⟩ := hall cb (List.mem_cons_self cb rest)
    have := ih (fun x hx => hall x (List.mem_cons_of_mem _ hx))
    simp [connectedHeaders, Callback.height] at this ⊢
    exact this

/-! ### Claim theorems -/

/-- Claim C5: for every sync in which `find_fork` returns an error,
`sync_listener` returns `Err((e, None))` and no side effect has occurred:
the cache is unchanged and no listener callback has fired. -/
theorem claim_C5 (header_cache : Cache) (chain_poller : Poller) (fuel : Nat)
    (new_header old_header : ValidatedBlockHeader) (e : BlockSourceError)
    (hff : find_fork header_cache chain_poller fuel new_header old_header
      = some (Except.error e)) :
    ∃ r, sync_listener header_cache chain_poller fuel new_header old_header = some r ∧
      r.outcome = SyncOutcome.fail e none ∧
      (∀ k, r.header_cache k = header_cache k) ∧
      r.callbacks = [] :=
  ⟨⟨SyncOutcome.fail e none, header_cache, []⟩,
    sync_listener_unfold_err header_cache chain_poller fuel new_header old_header e hff,
    rfl, fun _ => rfl, rfl⟩

/-- Witness for C5: a concrete sync whose fork-point lookup fails. -/
theorem claim_C5_witness :
    ∃ r, sync_listener wEmpty wPollerFail 3 wA1 wB1 = some r ∧
      r.outcome = SyncOutcome.fail wErr none ∧
      (∀ k, r.header_cache k = wEmpty k) ∧
      r.callbacks = [] :=
  claim_C5 wEmpty wPollerFail 3 wA1 wB1 wErr (by decide)

/-- Unfolding `poll_best_tip` on a `Better` verdict. -/
theorem poll_best_tip_better (chain_poller : Poller) (fuel : Nat) (c : SpvClient)
    (t : ValidatedBlockHeader)
    (hpoll : chain_poller.poll_chain_tip c.chain_tip = Except.ok (ChainTip.Better t)) :
    poll_best_tip chain_poller fuel c =
      match update_chain_tip chain_poller fuel c t with
      | UpdateResult.done b c2 => (PollOutcome.ok (ChainTip.Better t) b, c2)
      | UpdateResult.panicked c2 => (PollOutcome.panicked, c2)
      | UpdateResult.diverged => (PollOutcome.diverged, c) := by
  unfold poll_best_tip
  rw [hpoll]

/-- Unfolding `update_chain_tip` once the sync result is known. -/
theorem update_chain_tip_unfold (chain_poller : Poller) (fuel : Nat) (c : SpvClient)
    (t : ValidatedBlockHeader) (r : SyncReturn)
    (hs : sync_listener c.header_cache chain_poller fuel t c.chain_tip = some r) :
    update_chain_tip chain_poller fuel c t =
      match r.outcome with
      | SyncOutcome.ok =>
          UpdateResult.done true ⟨t, r.header_cache, c.callbacks ++ r.callbacks⟩
      | SyncOutcome.fail _ (some chain_tip) =>
          if chain_tip.block_hash ≠ c.chain_tip.block_hash then
            UpdateResult.done true ⟨chain_tip, r.header_cache, c.callbacks ++ r.callbacks⟩
          else UpdateResult.done false ⟨c.chain_tip, r.header_cache, c.callbacks ++ r.callbacks⟩
      | SyncOutcome.fail _ none =>
          UpdateResult.done false ⟨c.chain_tip, r.header_cache, c.callbacks ++ r.callbacks⟩
      | SyncOutcome.panicked =>
          UpdateResult.panicked ⟨c.chain_tip, r.header_cache, c.callbacks ++ r.callbacks⟩ := by
  unfold update_chain_tip
  rw [hs]

/-- Claim C4: `poll_best_tip` dispatches exactly as specified: `Common` and
`Worse` verdicts return `(·, false)` leaving the client (tip, cache,
callback log) unchanged; a `Better t` verdict syncs the listener, and then
adopts `t` on `Ok` returning `(Better t, true)`, adopts a partial tip with a
differing hash returning `(Better t, true)`, and in every other error case
returns `(Better t, false)` with the chain tip unchanged. -/
theorem claim_C4 (chain_poller : Poller) (fuel : Nat) (c : SpvClient) (tip : ChainTip)
    (hpoll : chain_poller.poll_chain_tip c.chain_tip = Except.ok tip) :
    (tip = ChainTip.Common →
      poll_best_tip chain_poller fuel c = (PollOutcome.ok ChainTip.Common false, c)) ∧
    (∀ t, tip = ChainTip.Worse t →
      poll_best_tip chain_poller fuel c = (PollOutcome.ok (ChainTip.Worse t) false, c)) ∧
    (∀ t r, tip = ChainTip.Better t →
      sync_listener c.header_cache chain_poller fuel t c.chain_tip = some r →
      ((r.outcome = SyncOutcome.ok →
         poll_best_tip chain_poller fuel c = (PollOutcome.ok (ChainTip.Better t) true,
           ⟨t, r.header_cache, c.callbacks ++ r.callbacks⟩)) ∧
       (∀ e pt, r.outcome = SyncOutcome.fail e (some pt) →
         pt.block_hash ≠ c.chain_tip.block_hash →
         poll_best_tip chain_poller fuel c = (PollOutcome.ok (ChainTip.Better t) true,
           ⟨pt, r.header_cache, c.callbacks ++ r.callbacks⟩)) ∧
       (∀ e pt, r.outcome = SyncOutcome.fail e (some pt) →
         pt.block_hash = c.chain_tip.block_hash →
         poll_best_tip chain_poller fuel c = (PollOutcome.ok (ChainTip.Better t) false,
           ⟨c.chain_tip, r.header_cache, c.callbacks ++ r.callbacks⟩)) ∧
       (∀ e, r.outcome = SyncOutcome.fail e none →
         poll_best_tip chain_poller fuel c = (PollOutcome.ok (ChainTip.Better t) false,
           ⟨c.chain_tip, r.header_cache, c.callbacks ++ r.callbacks⟩)))) := by
  refine ⟨?_, ?_, ?_⟩
  · rintro rfl
    unfold poll_best_tip
    rw [hpoll]
  · rintro t rfl
    unfold poll_best_tip
    rw [hpoll]
  · rintro t r rfl hs
    refine ⟨?_, ?_, ?_, ?_⟩
    · intro ho
      rw [poll_best_tip_better chain_poller fuel c t hpoll,
        update_chain_tip_unfold chain_poller fuel c t r hs, ho]
    · intro e pt ho hne
      rw [poll_best_tip_better chain_poller fuel c t hpoll,
        update_chain_tip_unfold chain_poller fuel c t r hs, ho]
      simp [hne]
    · intro e pt ho heq
      rw [poll_best_tip_better chain_poller fuel c t hpoll,
        update_chain_tip_unfold chain_poller fuel c t r hs, ho]
      simp [heq]
    · intro e ho
      rw [poll_best_tip_better chain_poller fuel c t hpoll,
        update_chain_tip_unfold chain_poller fuel c t r hs, ho]

/-- Witness for C4 at a concrete `Common` poll. -/
theorem claim_C4_witness :
    poll_best_tip
      ⟨fun _ => Except.ok ChainTip.Common, fun _ => Except.error wErr,
        fun _ => Except.error wErr⟩ 3 ⟨wG, wEmpty, []⟩
      = (PollOutcome.ok ChainTip.Common false, ⟨wG, wEmpty, []⟩) :=
  (claim_C4 ⟨fun _ => Except.ok ChainTip.Common, fun _ => Except.error wErr,
    fun _ => Except.error wErr⟩ 3 ⟨wG, wEmpty, []⟩ ChainTip.Common rfl).1 rfl

/-- Claim C7: when the two walk pointers share a parent (and the
single-extension fast path does not match), `find_fork` looks up the shared
parent and returns the plan ending with exactly
`DisconnectBlock previous, ConnectBlock current, ForkPoint parent`, in that
order; moreover in every successful plan a `ForkPoint` appears at most
once, always as that final triple, and never on any other exit path. -/
theorem claim_C7 (header_cache : Cache) (chain_poller : Poller) (fuel : Nat)
    (current previous fork_point : ValidatedBlockHeader)
    (hfork : current.header.prev_blockhash = previous.header.prev_blockhash)
    (hnotparent : ¬(current.height = previous.height + 1 ∧
      current.header.prev_blockhash = previous.block_hash))
    (hlk : look_up_previous_header header_cache chain_poller previous
      = Except.ok fork_point)
    (hfuel : 0 < fuel) :
    find_fork header_cache chain_poller fuel current previous
      = some (Except.ok [ForkStep.DisconnectBlock previous,
          ForkStep.ConnectBlock current, ForkStep.ForkPoint fork_point]) ∧
    (∀ (fuel' : Nat) (c p : ValidatedBlockHeader) (steps : List ForkStep),
      find_fork header_cache chain_poller fuel' c p = some (Except.ok steps) →
      (forksOf steps).length ≤ 1 ∧
      (∀ f, ForkStep.ForkPoint f ∈ steps →
        ∃ body pl cl, steps = body ++ [ForkStep.DisconnectBlock pl,
          ForkStep.ConnectBlock cl, ForkStep.ForkPoint f] ∧ forksOf body = [])) := by
  constructor
  · obtain ⟨n, rfl⟩ : ∃ n, fuel = n + 1 :=
      ⟨fuel - 1, by omega⟩
    show find_fork_loop header_cache chain_poller (n + 1) current previous []
      = some (Except.ok [ForkStep.DisconnectBlock previous,
          ForkStep.ConnectBlock current, ForkStep.ForkPoint fork_point])
    rw [find_fork_loop, if_neg hnotparent, if_pos hfork, hlk]
    rfl
  · intro fuel' c p steps hrun
    rcases find_fork_loop_shape header_cache chain_poller fuel' c p steps hrun with
      ⟨hforks, _, _, _⟩ | ⟨body, pl, cl, f, rfl, hforks, _⟩
    · refine ⟨by rw [hforks]; simp, ?_⟩
      intro f hf
      have : f ∈ forksOf steps := (mem_forksOf steps f).mpr hf
      rw [hforks] at this
      simp at this
    · have hlist : forksOf (body ++ [ForkStep.DisconnectBlock pl,
          ForkStep.ConnectBlock cl, ForkStep.ForkPoint f]) = [f] := by
        rw [forksOf_append, hforks]
        simp [forksOf, stepFork]
      refine ⟨by rw [hlist]; simp, ?_⟩
      intro g hg
      have : g ∈ forksOf (body ++ [ForkStep.DisconnectBlock pl,
          ForkStep.ConnectBlock cl, ForkStep.ForkPoint f]) := (mem_forksOf _ g).mpr hg
      rw [hlist] at this
      simp only [List.mem_singleton] at this
      subst this
      exact ⟨body, pl, cl, rfl, hforks⟩

/-- Witness for C7: the two branch tips `wB1` and `wA1` share parent `wG`. -/
theorem claim_C7_witness :
    find_fork wEmpty wPollerChain 4 wB1 wA1
      = some (Except.ok [ForkStep.DisconnectBlock wA1,
          ForkStep.ConnectBlock wB1, ForkStep.ForkPoint wG]) ∧
    (∀ (fuel' : Nat) (c p : ValidatedBlockHeader) (steps : List ForkStep),
      find_fork wEmpty wPollerChain fuel' c p = some (Except.ok steps) →
      (forksOf steps).length ≤ 1 ∧
      (∀ f, ForkStep.ForkPoint f ∈ steps →
        ∃ body pl cl, steps = body ++ [ForkStep.DisconnectBlock pl,
          ForkStep.ConnectBlock cl, ForkStep.ForkPoint f] ∧ forksOf body = [])) :=
  claim_C7 wEmpty wPollerChain 4 wB1 wA1 wG (by decide) (by decide) (by decide)
    (by decide)

/-- With `c8cache`, the walk from `(c8G, c8H)` reproduces its own state
every iteration: no fuel completes it. -/
theorem c8_loop_none :
    ∀ (fuel : Nat) (steps : List ForkStep),
    find_fork_loop c8cache wPollerFail fuel c8G c8H steps = none := by
  intro fuel
  induction fuel with
  | zero => intro steps; rfl
  | succ fuel ih =>
    intro steps
    rw [find_fork_loop]
    rw [if_neg (by decide : ¬(c8G.height = c8H.height + 1 ∧
      c8G.header.prev_blockhash = c8H.block_hash))]
    rw [if_neg (by decide : ¬c8G.header.prev_blockhash = c8H.header.prev_blockhash)]
    rw [if_pos (by decide : c8G.height ≤ c8H.height)]
    rw [show look_up_previous_header c8cache wPollerFail c8H = Except.ok c8H from rfl]
    simp only
    rw [if_pos (by decide : c8G.height ≥ c8H.height)]
    rw [show look_up_previous_header c8cache wPollerFail c8G = Except.ok c8G from rfl]
    simp only
    exact ih _

/-- Counterexample to claim C8 as stated: `wPollerFail` satisfies the
claim's premise on the poller (its lookups always fail), yet with a corrupt
cache whose entries do not step down in height, `find_fork` never
terminates — the cache-hit path of `look_up_previous_header` bypasses the
poller, so a premise on the poller alone does not bound the loop. -/
theorem claim_C8_counterexample :
    PollerDecrements wPollerFail ∧ FindForkDiverges c8cache wPollerFail c8G c8H := by
  constructor
  · intro h h' hok
    exact absurd hok (by simp [wPollerFail])
  · intro fuel
    exact c8_loop_none fuel []

/-- Claim C8 (amended): when the height contract holds for the combined
cache-or-poller lookup (each successful `look_up_previous_header` steps down
exactly one height — the claim's premise extended from the poller to the
cache-backed lookup it actually guards the loop with), `find_fork`
terminates: `current.height + previous.height + 1` iterations suffice, since
each non-exiting iteration steps back only the pointer of greater height
(both when equal) and strictly decreases the height sum. -/
theorem claim_C8_amended (header_cache : Cache) (chain_poller : Poller)
    (hdec : LookupDecrements header_cache chain_poller)
    (current_header prev_header : ValidatedBlockHeader) :
    find_fork header_cache chain_poller
      (current_header.height + prev_header.height + 1) current_header prev_header
      ≠ none :=
  find_fork_loop_terminates header_cache chain_poller hdec
    (current_header.height + prev_header.height + 1) current_header prev_header []
    (by omega)

/-- Witness for the amended C8 at a concrete cache and poller. -/
theorem claim_C8_amended_witness :
    find_fork wEmpty wPollerChain (wB2.height + wA2.height + 1) wB2 wA2 ≠ none :=
  claim_C8_amended wEmpty wPollerChain
    (by
      intro h h' hok
      simp only [look_up_previous_header, Cache.get, wEmpty] at hok
      simp only [wPollerChain] at hok
      by_cases h1 : h = wA1 ∨ h = wB1
      · rw [if_pos h1] at hok
        injection hok with hok
        subst hok
        rcases h1 with rfl | rfl <;> decide
      · rw [if_neg h1] at hok
        by_cases h2 : h = wA2
        · rw [if_pos h2] at hok
          injection hok with hok
          subst hok
          subst h2
          decide
        · rw [if_neg h2] at hok
          by_cases h3 : h = wB2
          · rw [if_pos h3] at hok
            injection hok with hok
            subst hok
            subst h3
            decide
          · rw [if_neg h3] at hok
            exact absurd hok (by simp))
    wB2 wA2

/-- When the disconnect pass hits the cache-disagreement assertion, the sync
aborts with the state the pass left behind. -/
theorem sync_listener_result_panic1 (header_cache : Cache) (chain_poller : Poller)
    (fuel : Nat) (new_header old_header : ValidatedBlockHeader)
    (steps : List ForkStep) (r : SyncReturn)
    (hff : find_fork header_cache chain_poller fuel new_header old_header
      = some (Except.ok steps))
    (hs : sync_listener header_cache chain_poller fuel new_header old_header = some r)
    (hp : (disconnect_pass steps header_cache none none []).panicked = true) :
    r = ⟨SyncOutcome.panicked,
      (disconnect_pass steps header_cache none none []).header_cache,
      (disconnect_pass steps header_cache none none []).callbacks⟩ := by
  rw [sync_listener_unfold_ok header_cache chain_poller fuel new_header old_header
    steps hff] at hs
  rw [if_pos hp] at hs
  exact (Option.some.inj hs).symm

/-- When the post-pass `assert_eq!` on `is_some` disagreement fires, the
sync aborts with the state the disconnect pass left behind. -/
theorem sync_listener_result_panic2 (header_cache : Cache) (chain_poller : Poller)
    (fuel : Nat) (new_header old_header : ValidatedBlockHeader)
    (steps : List ForkStep) (r : SyncReturn)
    (hff : find_fork header_cache chain_poller fuel new_header old_header
      = some (Except.ok steps))
    (hs : sync_listener header_cache chain_poller fuel new_header old_header = some r)
    (hp : (disconnect_pass steps header_cache none none []).panicked = false)
    (hne : (disconnect_pass steps header_cache none none []).last_disconnect_tip.isSome
      ≠ (disconnect_pass steps header_cache none none []).new_tip.isSome) :
    r = ⟨SyncOutcome.panicked,
      (disconnect_pass steps header_cache none none []).header_cache,
      (disconnect_pass steps header_cache none none []).callbacks⟩ := by
  rw [sync_listener_unfold_ok header_cache chain_poller fuel new_header old_header
    steps hff] at hs
  rw [if_neg (by simp [hp]), if_pos hne] at hs
  exact (Option.some.inj hs).symm

/-- When both assertions pass, the sync's result is exactly the connect
pass run on the disconnect pass's state. -/
theorem sync_listener_connect_case (header_cache : Cache) (chain_poller : Poller)
    (fuel : Nat) (new_header old_header : ValidatedBlockHeader)
    (steps : List ForkStep) (r : SyncReturn)
    (hff : find_fork header_cache chain_poller fuel new_header old_header
      = some (Except.ok steps))
    (hs : sync_listener header_cache chain_poller fuel new_header old_header = some r)
    (hp : (disconnect_pass steps header_cache none none []).panicked = false)
    (hassert : (disconnect_pass steps header_cache none none []).last_disconnect_tip.isSome
      = (disconnect_pass steps header_cache none none []).new_tip.isSome) :
    connect_pass chain_poller steps.reverse
        (disconnect_pass steps header_cache none none []).header_cache
        (match (disconnect_pass steps header_cache none none []).new_tip with
         | some tip_header => some tip_header
         | none => some old_header)
        (disconnect_pass steps header_cache none none []).callbacks
      = (r.outcome, r.header_cache, r.callbacks) := by
  rw [sync_listener_unfold_ok header_cache chain_poller fuel new_header old_header
    steps hff] at hs
  rw [if_neg (by simp [hp]), if_neg (by simp [hassert])] at hs
  rcases hcp : connect_pass chain_poller steps.reverse
      (disconnect_pass steps header_cache none none []).header_cache
      (match (disconnect_pass steps header_cache none none []).new_tip with
       | some tip_header => some tip_header
       | none => some old_header)
      (disconnect_pass steps header_cache none none []).callbacks with ⟨out, cache2, cbs2⟩
  rw [hcp] at hs
  have hs' : some (⟨out, cache2, cbs2⟩ : SyncReturn) = some r := hs
  obtain rfl : r = ⟨out, cache2, cbs2⟩ := (Option.some.inj hs').symm
  rfl

/-- Claim C10: `find_fork` never mutates the cache (it only reads it, and
headers fetched on a miss are not inserted), so all cache mutations of a
sync happen in the disconnect and connect passes: any key that is not the
hash of a planned `DisconnectBlock` or `ConnectBlock` holds exactly the
entry it held before the sync, whatever the sync's outcome. -/
theorem claim_C10 (header_cache : Cache) (chain_poller : Poller) (fuel : Nat)
    (new_header old_header : ValidatedBlockHeader) (steps : List ForkStep)
    (r : SyncReturn)
    (hff : find_fork header_cache chain_poller fuel new_header old_header
      = some (Except.ok steps))
    (hs : sync_listener header_cache chain_poller fuel new_header old_header = some r) :
    ∀ k, k ∉ (discsOf steps).map ValidatedBlockHeader.block_hash →
      k ∉ (connsOf steps).map ValidatedBlockHeader.block_hash →
      r.header_cache k = header_cache k := by
  intro k hkd hkc
  have hframe := (disconnect_pass_spec steps header_cache none none []).2.1 k hkd
  by_cases hp : (disconnect_pass steps header_cache none none []).panicked = true
  · obtain rfl := sync_listener_result_panic1 header_cache chain_poller fuel
      new_header old_header steps r hff hs hp
    exact hframe
  · rw [Bool.not_eq_true] at hp
    by_cases hassert : (disconnect_pass steps header_cache none none
        []).last_disconnect_tip.isSome
        = (disconnect_pass steps header_cache none none []).new_tip.isSome
    · have hcp := sync_listener_connect_case header_cache chain_poller fuel
        new_header old_header steps r hff hs hp hassert
      obtain ⟨l1, l2, hsplit, hfetch, hcache, hcbs, hout⟩ :=
        connect_pass_spec chain_poller steps.reverse _ _ _ _ _ _ hcp
      have hknotin : k ∉ (connsOf l1).map ValidatedBlockHeader.block_hash := by
        intro hmem
        apply hkc
        have h1 : k ∈ (connsOf (l1 ++ l2)).map ValidatedBlockHeader.block_hash := by
          rw [connsOf_append, List.map_append]
          exact List.mem_append_left _ hmem
        rw [← hsplit, connsOf_reverse, List.map_reverse, List.mem_reverse] at h1
        exact h1
      rw [hcache, insertAll_frame _ _ k hknotin]
      exact hframe
    · obtain rfl := sync_listener_result_panic2 header_cache chain_poller fuel
        new_header old_header steps r hff hs hp hassert
      exact hframe

/-- Witness for C10: a single-block extension sync leaves unrelated keys
untouched. -/
theorem claim_C10_witness :
    ∃ r, sync_listener wEmpty wPollerChain 4 wA2 wA1 = some r ∧
      r.header_cache 999 = wEmpty 999 := by
  rcases hs : sync_listener wEmpty wPollerChain 4 wA2 wA1 with _ | r
  · have hsome : (sync_listener wEmpty wPollerChain 4 wA2 wA1).isSome = true := by decide
    rw [hs] at hsome
    simp at hsome
  · exact ⟨r, rfl, claim_C10 wEmpty wPollerChain 4 wA2 wA1 [ForkStep.ConnectBlock wA2] r
      (by decide) hs 999 (by decide) (by decide)⟩

/-- The empty-cache lookup through `wPollerChain` steps down one height. -/
theorem wPollerChain_dec : LookupDecrements wEmpty wPollerChain := by
  intro h h' hok
  simp only [look_up_previous_header, Cache.get, wEmpty] at hok
  simp only [wPollerChain] at hok
  by_cases h1 : h = wA1 ∨ h = wB1
  · rw [if_pos h1] at hok
    injection hok with hok
    subst hok
    rcases h1 with rfl | rfl <;> decide
  · rw [if_neg h1] at hok
    by_cases h2 : h = wA2
    · rw [if_pos h2] at hok
      injection hok with hok
      subst hok
      subst h2
      decide
    · rw [if_neg h2] at hok
      by_cases h3 : h = wB2
      · rw [if_pos h3] at hok
        injection hok with hok
        subst hok
        subst h3
        decide
      · rw [if_neg h3] at hok
        exact absurd hok (by simp)

/-- The empty-cache lookup through `wPollerChain` returns the header keyed
by the argument's parent hash. -/
theorem wPollerChain_hash : LookupHashes wEmpty wPollerChain := by
  intro h h' hok
  simp only [look_up_previous_header, Cache.get, wEmpty] at hok
  simp only [wPollerChain] at hok
  by_cases h1 : h = wA1 ∨ h = wB1
  · rw [if_pos h1] at hok
    injection hok with hok
    subst hok
    rcases h1 with rfl | rfl <;> decide
  · rw [if_neg h1] at hok
    by_cases h2 : h = wA2
    · rw [if_pos h2] at hok
      injection hok with hok
      subst hok
      subst h2
      decide
    · rw [if_neg h2] at hok
      by_cases h3 : h = wB2
      · rw [if_pos h3] at hok
        injection hok with hok
        subst hok
        subst h3
        decide
      · rw [if_neg h3] at hok
        exact absurd hok (by simp)

/-- Claim C6: after the disconnect pass of a plan produced by a successful
`find_fork` (lookups obeying the spec's parent contract), the runtime
assertions hold: `last_disconnect_tip` is `Some` exactly when `new_tip` is
(equivalently, the plan has a `DisconnectBlock` iff it has a `ForkPoint`),
and when both are set the fork point's block hash equals the
`prev_blockhash` of the last disconnected header. -/
theorem claim_C6 (header_cache : Cache) (chain_poller : Poller) (fuel : Nat)
    (new_header old_header : ValidatedBlockHeader) (steps : List ForkStep)
    (hdec : LookupDecrements header_cache chain_poller)
    (hhash : LookupHashes header_cache chain_poller)
    (hff : find_fork header_cache chain_poller fuel new_header old_header
      = some (Except.ok steps))
    (hnopanic : (disconnect_pass steps header_cache none none []).panicked = false) :
    ((disconnect_pass steps header_cache none none []).last_disconnect_tip.isSome
      = (disconnect_pass steps header_cache none none []).new_tip.isSome) ∧
    ((∃ h, ForkStep.DisconnectBlock h ∈ steps) ↔ (∃ f, ForkStep.ForkPoint f ∈ steps)) ∧
    (∀ l n,
      (disconnect_pass steps header_cache none none []).last_disconnect_tip = some l →
      (disconnect_pass steps header_cache none none []).new_tip = some n →
      n.block_hash = l) := by
  obtain ⟨hldt, hnt, _⟩ := (disconnect_pass_spec steps header_cache none none []).2.2
    hnopanic
  have hiff : discsOf steps ≠ [] ↔ forksOf steps ≠ [] := by
    constructor
    · intro hd hf
      exact hd (find_fork_loop_nofork_nodisc header_cache chain_poller hdec fuel
        new_header old_header steps hff hf)
    · intro hf hd
      rcases find_fork_loop_shape header_cache chain_poller fuel new_header old_header
          steps hff with ⟨hforks, _⟩ | ⟨body, pl, cl, f, rfl, _, _⟩
      · exact hf hforks
      · rw [discsOf_append] at hd
        simp [discsOf, stepDisc] at hd
  have h1 : ((disconnect_pass steps header_cache none none
      []).last_disconnect_tip).isSome = true ↔ discsOf steps ≠ [] := by
    rw [hldt, optLast_none_isSome]
    simp
  have h2 : ((disconnect_pass steps header_cache none none []).new_tip).isSome = true
      ↔ forksOf steps ≠ [] := by
    rw [hnt, optLast_none_isSome]
  have hiff2 := (h1.trans hiff).trans h2.symm
  refine ⟨?_, ?_, ?_⟩
  · rcases Bool.eq_false_or_eq_true
        ((disconnect_pass steps header_cache none none []).last_disconnect_tip).isSome
      with hb | hb <;>
    rcases Bool.eq_false_or_eq_true
        ((disconnect_pass steps header_cache none none []).new_tip).isSome
      with hc | hc <;> simp_all
  · have hd : (∃ h, ForkStep.DisconnectBlock h ∈ steps) ↔ discsOf steps ≠ [] := by
      constructor
      · rintro ⟨h, hmem⟩ hnil
        have := (mem_discsOf steps h).mpr hmem
        rw [hnil] at this
        simp at this
      · intro hne
        obtain ⟨x, hx⟩ := List.exists_mem_of_ne_nil (discsOf steps) hne
        exact ⟨x, (mem_discsOf steps x).mp hx⟩
    have hf : (∃ f, ForkStep.ForkPoint f ∈ steps) ↔ forksOf steps ≠ [] := by
      constructor
      · rintro ⟨h, hmem⟩ hnil
        have := (mem_forksOf steps h).mpr hmem
        rw [hnil] at this
        simp at this
      · intro hne
        obtain ⟨x, hx⟩ := List.exists_mem_of_ne_nil (forksOf steps) hne
        exact ⟨x, (mem_forksOf steps x).mp hx⟩
    exact (hd.trans hiff).trans hf.symm
  · intro l n hl hn
    rw [hldt] at hl
    rw [hnt] at hn
    rcases find_fork_loop_shape header_cache chain_poller fuel new_header old_header
        steps hff with ⟨hforks, _⟩ | ⟨body, pl, cl, f, rfl, hforks, hlk⟩
    · rw [hforks] at hn
      exact absurd hn (by simp [optLast_nil])
    · have hforklist : forksOf (body ++ [ForkStep.DisconnectBlock pl,
          ForkStep.ConnectBlock cl, ForkStep.ForkPoint f]) = [f] := by
        rw [forksOf_append, hforks]
        simp [forksOf, stepFork]
      have hdisclist : discsOf (body ++ [ForkStep.DisconnectBlock pl,
          ForkStep.ConnectBlock cl, ForkStep.ForkPoint f]) = discsOf body ++ [pl] := by
        rw [discsOf_append]
        simp [discsOf, stepDisc]
      rw [hforklist] at hn
      simp only [optLast_cons, optLast_nil, Option.some.injEq] at hn
      rw [hdisclist, List.map_append, optLast_append] at hl
      simp only [List.map_cons, List.map_nil, optLast_cons, optLast_nil,
        Option.some.injEq] at hl
      subst hn
      subst hl
      exact hhash _ _ hlk

/-- Witness for C6: the fork between the two witness branch tips. -/
theorem claim_C6_witness :
    ((disconnect_pass [ForkStep.DisconnectBlock wA1, ForkStep.ConnectBlock wB1,
        ForkStep.ForkPoint wG] wEmpty none none []).last_disconnect_tip.isSome
      = (disconnect_pass [ForkStep.DisconnectBlock wA1, ForkStep.ConnectBlock wB1,
        ForkStep.ForkPoint wG] wEmpty none none []).new_tip.isSome) ∧
    ((∃ h, ForkStep.DisconnectBlock h ∈ [ForkStep.DisconnectBlock wA1,
        ForkStep.ConnectBlock wB1, ForkStep.ForkPoint wG]) ↔
      (∃ f, ForkStep.ForkPoint f ∈ [ForkStep.DisconnectBlock wA1,
        ForkStep.ConnectBlock wB1, ForkStep.ForkPoint wG])) ∧
    (∀ l n,
      (disconnect_pass [ForkStep.DisconnectBlock wA1, ForkStep.ConnectBlock wB1,
        ForkStep.ForkPoint wG] wEmpty none none []).last_disconnect_tip = some l →
      (disconnect_pass [ForkStep.DisconnectBlock wA1, ForkStep.ConnectBlock wB1,
        ForkStep.ForkPoint wG] wEmpty none none []).new_tip = some n →
      n.block_hash = l) :=
  claim_C6 wEmpty wPollerChain 4 wB1 wA1
    [ForkStep.DisconnectBlock wA1, ForkStep.ConnectBlock wB1, ForkStep.ForkPoint wG]
    wPollerChain_dec wPollerChain_hash (by decide) (by decide)

/-- Claim C2: in every invocation of `sync_listener` (succeeding, failing or
aborting), the callbacks issued split as all the disconnects followed by all
the connects, with the disconnect heights strictly descending and the
connect heights strictly ascending.  The poller's parent lookups are assumed
to obey the spec's height contract. -/
theorem claim_C2 (header_cache : Cache) (chain_poller : Poller) (fuel : Nat)
    (new_header old_header : ValidatedBlockHeader) (r : SyncReturn)
    (hdec : LookupDecrements header_cache chain_poller)
    (hs : sync_listener header_cache chain_poller fuel new_header old_header = some r) :
    ∃ ds cs, r.callbacks = ds ++ cs ∧
      (∀ cb ∈ ds, ∃ h, cb = Callback.block_disconnected h) ∧
      (∀ cb ∈ cs, ∃ b h, cb = Callback.block_connected b h) ∧
      List.Chain' (· > ·) (ds.map Callback.height) ∧
      List.Chain' (· < ·) (cs.map Callback.height) := by
  cases hff : find_fork header_cache chain_poller fuel new_header old_header with
  | none =>
    rw [sync_listener_unfold_div header_cache chain_poller fuel new_header old_header
      hff] at hs
    simp at hs
  | some res =>
    cases res with
    | error e =>
      rw [sync_listener_unfold_err header_cache chain_poller fuel new_header old_header
        e hff] at hs
      obtain rfl := (Option.some.inj hs).symm
      exact ⟨[], [], rfl, by simp, by simp, by simp, by simp⟩
    | ok steps =>
      obtain ⟨hchD, hchC⟩ := find_fork_loop_heights header_cache chain_poller hdec
        fuel new_header old_header steps hff
      obtain ⟨⟨l1, l2, hsplit, hcbs, hdone⟩, _, _⟩ :=
        disconnect_pass_spec steps header_cache none none []
      have hchD1 : List.Chain' (· > ·) ((discCallbacks l1).map Callback.height) := by
        rw [heights_discCallbacks]
        have h0 := hchD
        rw [hsplit, discsOf_append, List.map_append] at h0
        have h1 : List.Chain' (· > ·)
            (((old_header.height + 1) :: (discsOf l1).map ValidatedBlockHeader.height)
              ++ (discsOf l2).map ValidatedBlockHeader.height) := by
          simpa using h0
        exact ((List.chain'_append.mp h1).1).tail
      by_cases hp : (disconnect_pass steps header_cache none none []).panicked = true
      · obtain rfl := sync_listener_result_panic1 header_cache chain_poller fuel
          new_header old_header steps r hff hs hp
        exact ⟨discCallbacks l1, [], by simpa using hcbs,
          discCallbacks_all_disc l1, by simp, hchD1, by simp⟩
      · rw [Bool.not_eq_true] at hp
        have hl2 : l2 = [] := hdone hp
        subst hl2
        rw [List.append_nil] at hsplit
        subst hsplit
        by_cases hassert : (disconnect_pass steps header_cache none none
            []).last_disconnect_tip.isSome
            = (disconnect_pass steps header_cache none none []).new_tip.isSome
        · have hcp := sync_listener_connect_case header_cache chain_poller fuel
            new_header old_header steps r hff hs hp hassert
          obtain ⟨m1, m2, hsp2, hfetch, hcache2, hcbs2, hout⟩ :=
            connect_pass_spec chain_poller steps.reverse _ _ _ _ _ _ hcp
          refine ⟨discCallbacks steps, connCallbacks chain_poller m1, ?_,
            discCallbacks_all_disc steps, connCallbacks_all_conn chain_poller m1,
            hchD1, ?_⟩
          · rw [hcbs2, hcbs]
            simp
          · rw [heights_of_connects _ (connCallbacks_all_conn chain_poller m1),
              connectedHeaders_connCallbacks chain_poller m1 hfetch]
            have hrev : List.Chain' (· < ·)
                ((connsOf steps.reverse).map ValidatedBlockHeader.height) := by
              rw [connsOf_reverse, List.map_reverse, List.chain'_reverse]
              exact hchC.tail
            rw [hsp2, connsOf_append, List.map_append] at hrev
            exact (List.chain'_append.mp hrev).1
        · obtain rfl := sync_listener_result_panic2 header_cache chain_poller fuel
            new_header old_header steps r hff hs hp hassert
          exact ⟨discCallbacks steps, [], by simpa using hcbs,
            discCallbacks_all_disc steps, by simp, hchD1, by simp⟩

/-- Witness for C2: the longer-fork scenario `wA2 → wB2` (disconnect two,
connect two). -/
theorem claim_C2_witness :
    ∃ ds cs, (List.cons (Callback.block_disconnected wA2)
        [Callback.block_disconnected wA1, Callback.block_connected ⟨102⟩ wB1,
         Callback.block_connected ⟨104⟩ wB2]) = ds ++ cs ∧
      (∀ cb ∈ ds, ∃ h, cb = Callback.block_disconnected h) ∧
      (∀ cb ∈ cs, ∃ b h, cb = Callback.block_connected b h) ∧
      List.Chain' (· > ·) (ds.map Callback.height) ∧
      List.Chain' (· < ·) (cs.map Callback.height) := by
  rcases hs : sync_listener wEmpty wPollerChain 6 wB2 wA2 with _ | r
  · have hsome : (sync_listener wEmpty wPollerChain 6 wB2 wA2).isSome = true := by decide
    rw [hs] at hsome
    simp at hsome
  · have hcbs : r.callbacks = [Callback.block_disconnected wA2,
        Callback.block_disconnected wA1, Callback.block_connected ⟨102⟩ wB1,
        Callback.block_connected ⟨104⟩ wB2] := by
      have : (sync_listener wEmpty wPollerChain 6 wB2 wA2).map SyncReturn.callbacks
          = some [Callback.block_disconnected wA2, Callback.block_disconnected wA1,
              Callback.block_connected ⟨102⟩ wB1, Callback.block_connected ⟨104⟩ wB2] := by
        decide
      rw [hs] at this
      simpa using this
    have := claim_C2 wEmpty wPollerChain 6 wB2 wA2 r wPollerChain_dec hs
    rw [hcbs] at this
    simpa using this

/-- Claim C1: when `find_fork` succeeds but a block fetch in the connect
pass fails, `sync_listener` returns `Err((e, Some(tip)))` where `tip` is
exactly what the listener has seen: the last header announced connected if
any, otherwise the plan's fork point if any block was disconnected,
otherwise `old_header`; and no block beyond `tip` has been announced
connected (the connect announcements end at `tip`). -/
theorem claim_C1 (header_cache : Cache) (chain_poller : Poller) (fuel : Nat)
    (new_header old_header : ValidatedBlockHeader) (steps : List ForkStep)
    (r : SyncReturn) (e : BlockSourceError) (tp : Option ValidatedBlockHeader)
    (hff : find_fork header_cache chain_poller fuel new_header old_header
      = some (Except.ok steps))
    (hs : sync_listener header_cache chain_poller fuel new_header old_header = some r)
    (ho : r.outcome = SyncOutcome.fail e tp) :
    ∃ tip, tp = some tip ∧
      (connectedHeaders r.callbacks ≠ [] →
        (connectedHeaders r.callbacks).getLast? = some tip) ∧
      (connectedHeaders r.callbacks = [] → disconnectedHeaders r.callbacks ≠ [] →
        ForkStep.ForkPoint tip ∈ steps) ∧
      (connectedHeaders r.callbacks = [] → disconnectedHeaders r.callbacks = [] →
        tip = old_header) := by
  by_cases hp : (disconnect_pass steps header_cache none none []).panicked = true
  · obtain rfl := sync_listener_result_panic1 header_cache chain_poller fuel
      new_header old_header steps r hff hs hp
    exact absurd ho (by simp)
  · rw [Bool.not_eq_true] at hp
    obtain ⟨⟨l1, l2, hsplit, hcbs, hdone⟩, _, hrest⟩ :=
      disconnect_pass_spec steps header_cache none none []
    obtain ⟨hldt, hnt, _⟩ := hrest hp
    have hl2 : l2 = [] := hdone hp
    subst hl2
    rw [List.append_nil] at hsplit
    subst hsplit
    by_cases hassert : (disconnect_pass steps header_cache none none
        []).last_disconnect_tip.isSome
        = (disconnect_pass steps header_cache none none []).new_tip.isSome
    swap
    · obtain rfl := sync_listener_result_panic2 header_cache chain_poller fuel
        new_header old_header steps r hff hs hp hassert
      exact absurd ho (by simp)
    · have hcp := sync_listener_connect_case header_cache chain_poller fuel
        new_header old_header steps r hff hs hp hassert
      obtain ⟨m1, m2, hsp2, hfetch, hcache2, hcbs2, hout⟩ :=
        connect_pass_spec chain_poller steps.reverse _ _ _ _ _ _ hcp
      have hconn : connectedHeaders r.callbacks = connsOf m1 := by
        rw [hcbs2, hcbs, connectedHeaders_append, connectedHeaders_append]
        rw [connectedHeaders_discCallbacks,
          connectedHeaders_connCallbacks chain_poller m1 hfetch]
        simp [connectedHeaders]
      have hdisc : disconnectedHeaders r.callbacks = discsOf steps := by
        rw [hcbs2, hcbs, disconnectedHeaders_append, disconnectedHeaders_append]
        rw [disconnectedHeaders_discCallbacks,
          disconnectedHeaders_connCallbacks chain_poller m1]
        simp [disconnectedHeaders]
      rcases hout with ⟨hok, _⟩ | ⟨e', hb, l2', hm2, hferr, hfail⟩
      · rw [ho] at hok
        exact absurd hok (by simp)
      · rw [ho] at hfail
        injection hfail with he htp
        subst htp
        cases hgl : (connsOf m1).getLast? with
        | some y =>
          refine ⟨y, ?_, ?_, ?_, ?_⟩
          · rw [optLast_eq_getLast?, hgl]
            rfl
          · intro _
            rw [hconn]
            exact hgl
          · intro hempty _
            rw [hconn] at hempty
            rw [hempty] at hgl
            simp at hgl
          · intro hempty _
            rw [hconn] at hempty
            rw [hempty] at hgl
            simp at hgl
        | none =>
          have hnil : connsOf m1 = [] := List.getLast?_eq_none_iff.mp hgl
          cases hdiscs : discsOf steps with
          | nil =>
            have hldt0 : (disconnect_pass steps header_cache none none
                []).last_disconnect_tip = none := by
              rw [hldt, hdiscs]
              rfl
            have hnts : (disconnect_pass steps header_cache none none
                []).new_tip.isSome = false := by
              rw [← hassert, hldt0]
              rfl
            have hnt0 : (disconnect_pass steps header_cache none none
                []).new_tip = none := by
              cases hx : (disconnect_pass steps header_cache none none []).new_tip with
              | none => rfl
              | some z => rw [hx] at hnts; simp at hnts
            refine ⟨old_header, ?_, ?_, ?_, ?_⟩
            · rw [hnil, hnt0]
              rfl
            · intro hne
              rw [hconn, hnil] at hne
              exact absurd rfl hne
            · intro _ hd
              rw [hdisc, hdiscs] at hd
              exact absurd rfl hd
            · intro _ _
              rfl
          | cons d ds =>
            have hldt1 : (disconnect_pass steps header_cache none none
                []).last_disconnect_tip.isSome = true := by
              rw [hldt, optLast_none_isSome, hdiscs]
              simp
            have hnts : (disconnect_pass steps header_cache none none
                []).new_tip.isSome = true := hassert ▸ hldt1
            obtain ⟨fp, hfp⟩ := Option.isSome_iff_exists.mp hnts
            have hfpmem : ForkStep.ForkPoint fp ∈ steps := by
              rw [hnt] at hfp
              exact (mem_forksOf steps fp).mp (optLast_none_mem hfp)
            refine ⟨fp, ?_, ?_, ?_, ?_⟩
            · rw [hnil, hfp]
              rfl
            · intro hne
              rw [hconn, hnil] at hne
              exact absurd rfl hne
            · intro _ _
              exact hfpmem
            · intro _ hd
              rw [hdisc, hdiscs] at hd
              exact absurd hd (by simp)

/-- Witness for C1: the longer-fork sync `wA2 → wB2` whose fetch of `wB2`
fails; the listener is left at `wB1`, the last connected header. -/
theorem claim_C1_witness :
    ∃ tip, (some wB1 : Option ValidatedBlockHeader) = some tip ∧
      (connectedHeaders [Callback.block_disconnected wA2,
          Callback.block_disconnected wA1, Callback.block_connected ⟨102⟩ wB1] ≠ [] →
        (connectedHeaders [Callback.block_disconnected wA2,
          Callback.block_disconnected wA1,
          Callback.block_connected ⟨102⟩ wB1]).getLast? = some tip) ∧
      (connectedHeaders [Callback.block_disconnected wA2,
          Callback.block_disconnected wA1, Callback.block_connected ⟨102⟩ wB1] = [] →
        disconnectedHeaders [Callback.block_disconnected wA2,
          Callback.block_disconnected wA1, Callback.block_connected ⟨102⟩ wB1] ≠ [] →
        ForkStep.ForkPoint tip ∈ [ForkStep.DisconnectBlock wA2,
          ForkStep.ConnectBlock wB2, ForkStep.DisconnectBlock wA1,
          ForkStep.ConnectBlock wB1, ForkStep.ForkPoint wG]) ∧
      (connectedHeaders [Callback.block_disconnected wA2,
          Callback.block_disconnected wA1, Callback.block_connected ⟨102⟩ wB1] = [] →
        disconnectedHeaders [Callback.block_disconnected wA2,
          Callback.block_disconnected wA1, Callback.block_connected ⟨102⟩ wB1] = [] →
        tip = wA2) := by
  rcases hs : sync_listener wEmpty wPollerNoB2 6 wB2 wA2 with _ | r
  · have hsome : (sync_listener wEmpty wPollerNoB2 6 wB2 wA2).isSome = true := by decide
    rw [hs] at hsome
    simp at hsome
  · have hcbs : r.callbacks = [Callback.block_disconnected wA2,
        Callback.block_disconnected wA1, Callback.block_connected ⟨102⟩ wB1] := by
      have h0 : (sync_listener wEmpty wPollerNoB2 6 wB2 wA2).map SyncReturn.callbacks
          = some [Callback.block_disconnected wA2, Callback.block_disconnected wA1,
              Callback.block_connected ⟨102⟩ wB1] := by decide
      rw [hs] at h0
      simpa using h0
    have ho : r.outcome = SyncOutcome.fail wErr (some wB1) := by
      have h0 : (sync_listener wEmpty wPollerNoB2 6 wB2 wA2).map SyncReturn.outcome
          = some (SyncOutcome.fail wErr (some wB1)) := by decide
      rw [hs] at h0
      simpa using h0
    have := claim_C1 wEmpty wPollerNoB2 6 wB2 wA2
      [ForkStep.DisconnectBlock wA2, ForkStep.ConnectBlock wB2,
       ForkStep.DisconnectBlock wA1, ForkStep.ConnectBlock wB1, ForkStep.ForkPoint wG]
      r wErr (some wB1) (by decide) hs ho
    rw [hcbs] at this
    exact this

/-- Counterexample to claim C3 as stated: syncing from `wA2` back to its own
ancestor `wA1` (an execution `sync_listener` accepts) returns `Ok(())` after
announcing `block_disconnected` for `wA1` and then re-connecting it — so a
header for which `block_disconnected` was announced during the sync is still
present in the cache afterwards. -/
theorem claim_C3_counterexample :
    ((sync_listener wEmpty wPollerChain 6 wA1 wA2).map SyncReturn.outcome
      = some SyncOutcome.ok) ∧
    ((sync_listener wEmpty wPollerChain 6 wA1 wA2).map SyncReturn.callbacks
      = some [Callback.block_disconnected wA2, Callback.block_disconnected wA1,
          Callback.block_connected ⟨101⟩ wA1]) ∧
    ((sync_listener wEmpty wPollerChain 6 wA1 wA2).map
        (fun r => r.header_cache wA1.block_hash) = some (some wA1)) :=
  ⟨by decide, by decide, by decide⟩

/-- Claim C3 (amended): after `Ok(())`, every header announced connected is
present in the cache (the connected hashes being distinct, as the
hash-of-header invariant guarantees), and every header announced
disconnected whose hash was not also announced connected in the same sync is
absent.  The clause "not also announced connected" is forced by the
counterexample: a sync from a tip to one of its own ancestors disconnects
and then re-connects that ancestor, which therefore stays cached. -/
theorem claim_C3_amended (header_cache : Cache) (chain_poller : Poller) (fuel : Nat)
    (new_header old_header : ValidatedBlockHeader) (steps : List ForkStep)
    (r : SyncReturn)
    (hff : find_fork header_cache chain_poller fuel new_header old_header
      = some (Except.ok steps))
    (hs : sync_listener header_cache chain_poller fuel new_header old_header = some r)
    (ho : r.outcome = SyncOutcome.ok)
    (hnd : ((connectedHeaders r.callbacks).map ValidatedBlockHeader.block_hash).Nodup) :
    (∀ h, h ∈ connectedHeaders r.callbacks → r.header_cache h.block_hash = some h) ∧
    (∀ h, h ∈ disconnectedHeaders r.callbacks →
      h.block_hash ∉ (connectedHeaders r.callbacks).map ValidatedBlockHeader.block_hash →
      r.header_cache h.block_hash = none) := by
  by_cases hp : (disconnect_pass steps header_cache none none []).panicked = true
  · obtain rfl := sync_listener_result_panic1 header_cache chain_poller fuel
      new_header old_header steps r hff hs hp
    exact absurd ho (by simp)
  · rw [Bool.not_eq_true] at hp
    obtain ⟨⟨l1, l2, hsplit, hcbs, hdone⟩, _, hrest⟩ :=
      disconnect_pass_spec steps header_cache none none []
    obtain ⟨hldt, hnt, habs⟩ := hrest hp
    have hl2 : l2 = [] := hdone hp
    subst hl2
    rw [List.append_nil] at hsplit
    subst hsplit
    by_cases hassert : (disconnect_pass steps header_cache none none
        []).last_disconnect_tip.isSome
        = (disconnect_pass steps header_cache none none []).new_tip.isSome
    swap
    · obtain rfl := sync_listener_result_panic2 header_cache chain_poller fuel
        new_header old_header steps r hff hs hp hassert
      exact absurd ho (by simp)
    · have hcp := sync_listener_connect_case header_cache chain_poller fuel
        new_header old_header steps r hff hs hp hassert
      obtain ⟨m1, m2, hsp2, hfetch, hcache2, hcbs2, hout⟩ :=
        connect_pass_spec chain_poller steps.reverse _ _ _ _ _ _ hcp
      rcases hout with ⟨_, hm2⟩ | ⟨e', hb, l2', hm2, hferr, hfail⟩
      swap
      · rw [ho] at hfail
        exact absurd hfail.symm (by simp)
      · subst hm2
        rw [List.append_nil] at hsp2
        have hconn : connectedHeaders r.callbacks = connsOf m1 := by
          rw [hcbs2, hcbs, connectedHeaders_append, connectedHeaders_append]
        
          rw [connectedHeaders_discCallbacks,
            connectedHeaders_connCallbacks chain_poller m1 hfetch]
          simp [connectedHeaders]
        have hdisc : disconnectedHeaders r.callbacks = discsOf steps := by
          rw [hcbs2, hcbs, disconnectedHeaders_append, disconnectedHeaders_append]
          rw [disconnectedHeaders_discCallbacks,
            disconnectedHeaders_connCallbacks chain_poller m1]
          simp [disconnectedHeaders]
        rw [hconn] at hnd
        constructor
        · intro h hmem
          rw [hconn] at hmem
          rw [hcache2]
          exact insertAll_mem (connsOf m1) _ h hnd hmem
        · intro h hmem hnot
          rw [hdisc] at hmem
          rw [hconn] at hnot
          rw [hcache2, insertAll_frame _ _ _ hnot]
          exact habs h.block_hash (List.mem_map_of_mem ValidatedBlockHeader.block_hash hmem)

/-- Witness for the amended C3: the equal-fork sync `wA1 → wB1` ends with
`wB1` cached and `wA1` absent. -/
theorem claim_C3_amended_witness :
    ((sync_listener wEmpty wPollerChain 6 wB1 wA1).map
        (fun r => r.header_cache wB1.block_hash) = some (some wB1)) ∧
    ((sync_listener wEmpty wPollerChain 6 wB1 wA1).map
        (fun r => r.header_cache wA1.block_hash) = some none) := by
  rcases hs : sync_listener wEmpty wPollerChain 6 wB1 wA1 with _ | r
  · have hsome : (sync_listener wEmpty wPollerChain 6 wB1 wA1).isSome = true := by decide
    rw [hs] at hsome
    simp at hsome
  · have hcbs : r.callbacks = [Callback.block_disconnected wA1,
        Callback.block_connected ⟨102⟩ wB1] := by
      have h0 : (sync_listener wEmpty wPollerChain 6 wB1 wA1).map SyncReturn.callbacks
          = some [Callback.block_disconnected wA1,
              Callback.block_connected ⟨102⟩ wB1] := by decide
      rw [hs] at h0
      simpa using h0
    have ho : r.outcome = SyncOutcome.ok := by
      have h0 : (sync_listener wEmpty wPollerChain 6 wB1 wA1).map SyncReturn.outcome
          = some SyncOutcome.ok := by decide
      rw [hs] at h0
      simpa using h0
    have h := claim_C3_amended wEmpty wPollerChain 6 wB1 wA1
      [ForkStep.DisconnectBlock wA1, ForkStep.ConnectBlock wB1, ForkStep.ForkPoint wG]
      r (by decide) hs ho (by rw [hcbs]; decide)
    simp only [Option.map_some']
    constructor
    · exact congrArg some (h.1 wB1 (by rw [hcbs]; decide))
    · exact congrArg some (h.2 wA1 (by rw [hcbs]; decide) (by rw [hcbs]; decide))

/-- Mirror lemma: when the lookups of the second sync agree with those of
the first (the cache-consistency contract), lookups are determined by the
parent hash, hashes are acyclic and injective on the headers in play, and
the first walk exits through the chain-fork fast path with disjoint
disconnect and connect sets, then the reversed walk succeeds with the
disconnect and connect header sequences exactly swapped. -/
theorem find_fork_loop_mirror (chain_poller : Poller) (cache1 cache2 : Cache)
    (A B : ValidatedBlockHeader)
    (hLC : ∀ h, look_up_previous_header cache2 chain_poller h
      = look_up_previous_header cache1 chain_poller h)
    (hLPREV : ∀ h1 h2, h1.header.prev_blockhash = h2.header.prev_blockhash →
      look_up_previous_header cache1 chain_poller h1
        = look_up_previous_header cache1 chain_poller h2)
    (hLHASH : LookupHashes cache1 chain_poller)
    (hNSP : ∀ h, InPlay cache1 chain_poller B A h →
      h.block_hash ≠ h.header.prev_blockhash)
    (hINJ : ∀ h1 h2, InPlay cache1 chain_poller B A h1 →
      InPlay cache1 chain_poller B A h2 → h1.block_hash = h2.block_hash → h1 = h2) :
    ∀ (fuel : Nat) (c p : ValidatedBlockHeader) (tail1 : List ForkStep),
    find_fork_loop cache1 chain_poller fuel c p [] = some (Except.ok tail1) →
    forksOf tail1 ≠ [] →
    (∀ h ∈ discsOf tail1, h ∉ connsOf tail1) →
    InPlay cache1 chain_poller B A c → InPlay cache1 chain_poller B A p →
    ∃ tail2, find_fork_loop cache2 chain_poller fuel p c [] = some (Except.ok tail2) ∧
      discsOf tail2 = connsOf tail1 ∧ connsOf tail2 = discsOf tail1 := by
  intro fuel
  induction fuel with
  | zero => intro c p tail1 h1; exact absurd h1 (by simp [find_fork_loop])
  | succ fuel ih =>
    intro c p tail1 h1 hforks hdisj hc hp
    rw [find_fork_loop] at h1
    by_cases hcond1 : c.height = p.height + 1 ∧ c.header.prev_blockhash = p.block_hash
    · rw [if_pos hcond1] at h1
      simp only [Option.some.injEq, Except.ok.injEq] at h1
      subst h1
      apply absurd hforks
      simp [forksOf, stepFork]
    · rw [if_neg hcond1] at h1
      by_cases hcond2 : c.header.prev_blockhash = p.header.prev_blockhash
      · -- run 1 exits through the chain-fork fast path
        rw [if_pos hcond2] at h1
        cases hl : look_up_previous_header cache1 chain_poller p with
        | error e => rw [hl] at h1; simp at h1
        | ok f =>
          rw [hl] at h1
          simp only [Option.some.injEq, Except.ok.injEq] at h1
          subst h1
          refine ⟨[ForkStep.DisconnectBlock c, ForkStep.ConnectBlock p,
            ForkStep.ForkPoint f], ?_, ?_, ?_⟩
          · rw [find_fork_loop]
            rw [if_neg (by
              rintro ⟨-, hq⟩
              exact hNSP c hc (by rw [← hq, hcond2]))]
            rw [if_pos hcond2.symm]
            rw [hLC c, hLPREV c p hcond2, hl]
            rfl
          · simp [discsOf, connsOf, stepDisc, stepConn, stepFork]
          · simp [discsOf, connsOf, stepDisc, stepConn, stepFork]
      · rw [if_neg hcond2] at h1
        by_cases hcond3 : c.height ≤ p.height
        · rw [if_pos hcond3] at h1
          cases hl : look_up_previous_header cache1 chain_poller p with
          | error e => rw [hl] at h1; simp at h1
          | ok p2 =>
            rw [hl] at h1
            simp only at h1
            have hp2in : InPlay cache1 chain_poller B A p2 := Or.inr (Or.inr ⟨p, hl⟩)
            by_cases hcond4 : c.height ≥ p.height
            · -- equal heights: both pointers step
              rw [if_pos hcond4] at h1
              cases hl2 : look_up_previous_header cache1 chain_poller c with
              | error e => rw [hl2] at h1; simp at h1
              | ok c2 =>
                rw [hl2] at h1
                simp only at h1
                have hc2in : InPlay cache1 chain_poller B A c2 := Or.inr (Or.inr ⟨c, hl2⟩)
                obtain ⟨T1, rfl, hrec⟩ :=
                  find_fork_loop_shift cache1 chain_poller fuel c2 p2 _ _ h1
                obtain ⟨T2, hrun2, hd2, hc2⟩ := ih c2 p2 T1 hrec
                  (by simpa [forksOf, stepFork] using hforks)
                  (by
                    intro h hmem hmem2
                    exact hdisj h
                      (by simpa [discsOf, stepDisc] using Or.inr hmem)
                      (by simpa [connsOf, stepConn] using Or.inr hmem2))
                  hc2in hp2in
                refine ⟨[ForkStep.DisconnectBlock c, ForkStep.ConnectBlock p] ++ T2,
                  ?_, ?_, ?_⟩
                · rw [find_fork_loop]
                  rw [if_neg (by rintro ⟨hq, -⟩; omega)]
                  rw [if_neg (fun hq => hcond2 hq.symm)]
                  rw [if_pos (by omega : p.height ≤ c.height)]
                  rw [hLC c, hl2]
                  simp only
                  rw [if_pos (by omega : p.height ≥ c.height)]
                  rw [hLC p, hl]
                  simp only
                  exact find_fork_loop_unshift cache2 chain_poller fuel p2 c2 _ T2 hrun2
                · simp only [discsOf, connsOf, List.filterMap_append, List.filterMap_cons,
                    stepDisc, stepConn, List.filterMap_nil] at hd2 hc2 ⊢
                  simp [hd2, stepDisc, stepConn]
                · simp only [discsOf, connsOf, List.filterMap_append, List.filterMap_cons,
                    stepDisc, stepConn, List.filterMap_nil] at hd2 hc2 ⊢
                  simp [hc2, stepDisc, stepConn]
            · -- current strictly below previous: only `previous` steps
              rw [if_neg hcond4] at h1
              obtain ⟨T1, rfl, hrec⟩ :=
                find_fork_loop_shift cache1 chain_poller fuel c p2 _ _ h1
              have hdisjT1 : ∀ h ∈ discsOf T1, h ∉ connsOf T1 := by
                intro h hmem hmem2
                exact hdisj h
                  (by simpa [discsOf, stepDisc] using Or.inr hmem)
                  (by simpa [connsOf, stepConn] using hmem2)
              obtain ⟨T2, hrun2, hd2, hc2⟩ := ih c p2 T1 hrec
                (by simpa [forksOf, stepFork] using hforks) hdisjT1 hc hp2in
              have hnotpar2 : ¬(p.height = c.height + 1 ∧
                  p.header.prev_blockhash = c.block_hash) := by
                rintro ⟨hh, hq⟩
                -- then p2 and c share a block hash, so p2 = c and run 1 next
                -- exits through the fork path disconnecting and connecting c
                have hp2c : p2 = c := hINJ p2 c hp2in hc (by
                  rw [hLHASH p p2 hl, hq])
                subst hp2c
                cases fuel with
                | zero => exact absurd hrec (by simp [find_fork_loop])
                | succ n =>
                  rw [find_fork_loop] at hrec
                  rw [if_neg (by rintro ⟨hq1, -⟩; omega)] at hrec
                  rw [if_pos rfl] at hrec
                  cases hl3 : look_up_previous_header cache1 chain_poller p2 with
                  | error e => rw [hl3] at hrec; simp at hrec
                  | ok g =>
                    rw [hl3] at hrec
                    simp only [Option.some.injEq, Except.ok.injEq] at hrec
                    refine hdisj p2 ?_ ?_
                    · rw [← hrec]
                      simp [discsOf, stepDisc]
                    · rw [← hrec]
                      simp [connsOf, stepConn]
              refine ⟨ForkStep.ConnectBlock p :: T2, ?_, ?_, ?_⟩
              · rw [find_fork_loop]
                rw [if_neg hnotpar2]
                rw [if_neg (fun hq => hcond2 hq.symm)]
                rw [if_neg (by omega : ¬p.height ≤ c.height)]
                rw [hLC p, hl]
                simp only
                exact find_fork_loop_unshift cache2 chain_poller fuel p2 c _ T2 hrun2
              · simp only [discsOf, connsOf, List.filterMap_cons, stepDisc, stepConn]
                  at hd2 hc2 ⊢
                simp [hd2, stepDisc, stepConn]
              · simp only [discsOf, connsOf, List.filterMap_cons, stepDisc, stepConn]
                  at hd2 hc2 ⊢
                simp [hc2, stepDisc, stepConn]
        · -- current strictly above previous: only `current` steps
          rw [if_neg hcond3] at h1
          cases hl2 : look_up_previous_header cache1 chain_poller c with
          | error e => rw [hl2] at h1; simp at h1
          | ok c2 =>
            rw [hl2] at h1
            simp only at h1
            have hc2in : InPlay cache1 chain_poller B A c2 := Or.inr (Or.inr ⟨c, hl2⟩)
            obtain ⟨T1, rfl, hrec⟩ :=
              find_fork_loop_shift cache1 chain_poller fuel c2 p _ _ h1
            have hdisjT1 : ∀ h ∈ discsOf T1, h ∉ connsOf T1 := by
              intro h hmem hmem2
              exact hdisj h
                (by simpa [discsOf, stepDisc] using hmem)
                (by simpa [connsOf, stepConn] using Or.inr hmem2)
            obtain ⟨T2, hrun2, hd2, hc2⟩ := ih c2 p T1 hrec
              (by simpa [forksOf, stepFork] using hforks) hdisjT1 hc2in hp
            refine ⟨ForkStep.DisconnectBlock c :: T2, ?_, ?_, ?_⟩
            · rw [find_fork_loop]
              rw [if_neg (by rintro ⟨hq, -⟩; omega)]
              rw [if_neg (fun hq => hcond2 hq.symm)]
              rw [if_pos (by omega : p.height ≤ c.height)]
              rw [hLC c, hl2]
              simp only
              rw [if_neg (by omega : ¬p.height ≥ c.height)]
              exact find_fork_loop_unshift cache2 chain_poller fuel p c2 _ T2 hrun2
            · simp only [discsOf, connsOf, List.filterMap_cons, stepDisc, stepConn]
                at hd2 hc2 ⊢
              simp [hd2, stepDisc, stepConn]
            · simp only [discsOf, connsOf, List.filterMap_cons, stepDisc, stepConn]
                at hd2 hc2 ⊢
              simp [hc2, stepDisc, stepConn]

/-- A sync that returns `Ok(())` announced exactly the plan's disconnects in
plan order followed by the plan's connects in reverse plan order, and every
planned connect fetched successfully. -/
theorem sync_listener_ok_callbacks (header_cache : Cache) (chain_poller : Poller)
    (fuel : Nat) (new_header old_header : ValidatedBlockHeader)
    (steps : List ForkStep) (r : SyncReturn)
    (hff : find_fork header_cache chain_poller fuel new_header old_header
      = some (Except.ok steps))
    (hs : sync_listener header_cache chain_poller fuel new_header old_header = some r)
    (ho : r.outcome = SyncOutcome.ok) :
    (∀ h ∈ connsOf steps.reverse, ∃ b, chain_poller.fetch_block h = Except.ok b) ∧
    r.callbacks = discCallbacks steps ++ connCallbacks chain_poller steps.reverse := by
  by_cases hp : (disconnect_pass steps header_cache none none []).panicked = true
  · obtain rfl := sync_listener_result_panic1 header_cache chain_poller fuel
      new_header old_header steps r hff hs hp
    exact absurd ho (by simp)
  · rw [Bool.not_eq_true] at hp
    obtain ⟨⟨l1, l2, hsplit, hcbs, hdone⟩, _, _⟩ :=
      disconnect_pass_spec steps header_cache none none []
    have hl2 : l2 = [] := hdone hp
    subst hl2
    rw [List.append_nil] at hsplit
    subst hsplit
    by_cases hassert : (disconnect_pass steps header_cache none none
        []).last_disconnect_tip.isSome
        = (disconnect_pass steps header_cache none none []).new_tip.isSome
    swap
    · obtain rfl := sync_listener_result_panic2 header_cache chain_poller fuel
        new_header old_header steps r hff hs hp hassert
      exact absurd ho (by simp)
    · have hcp := sync_listener_connect_case header_cache chain_poller fuel
        new_header old_header steps r hff hs hp hassert
      obtain ⟨m1, m2, hsp2, hfetch, hcache2, hcbs2, hout⟩ :=
        connect_pass_spec chain_poller steps.reverse _ _ _ _ _ _ hcp
      rcases hout with ⟨_, hm2⟩ | ⟨e', hb, l2', hm2, hferr, hfail⟩
      swap
      · rw [ho] at hfail
        exact absurd hfail.symm (by simp)
      · subst hm2
        rw [List.append_nil] at hsp2
        subst hsp2
        refine ⟨hfetch, ?_⟩
        rw [hcbs2, hcbs]
        simp

theorem connectedHeaders_reverse (cbs : List Callback) :
    connectedHeaders cbs.reverse = (connectedHeaders cbs).reverse := by
  simp [connectedHeaders, List.filterMap_reverse]

/-- Disconnect announcements for a header sequence mirror, position by
position, any all-connect trace announcing the same sequence. -/
theorem forall2_mirror_disc_conn :
    ∀ (cbs : List Callback) (hs : List ValidatedBlockHeader),
    (∀ cb ∈ cbs, ∃ b h, cb = Callback.block_connected b h) →
    connectedHeaders cbs = hs →
    List.Forall₂ MirrorCallback (hs.map Callback.block_disconnected) cbs := by
  intro cbs
  induction cbs with
  | nil =>
    intro hs _ hconn
    rw [show connectedHeaders [] = [] from rfl] at hconn
    subst hconn
    exact List.Forall₂.nil
  | cons cb rest ih =>
    intro hs hall hconn
    obtain ⟨b, h, rfl⟩ := hall cb (List.mem_cons_self cb rest)
    rw [show connectedHeaders (Callback.block_connected b h :: rest)
      = h :: connectedHeaders rest from rfl] at hconn
    subst hconn
    exact List.Forall₂.cons rfl
      (ih (connectedHeaders rest) (fun x hx => hall x (List.mem_cons_of_mem _ hx)) rfl)

/-- Connect announcements of a sequence mirror, position by position, the
disconnect announcements of the same sequence. -/
theorem forall2_mirror_conn_disc :
    ∀ (cbs : List Callback) (hs : List ValidatedBlockHeader),
    (∀ cb ∈ cbs, ∃ b h, cb = Callback.block_connected b h) →
    connectedHeaders cbs = hs →
    List.Forall₂ MirrorCallback cbs (hs.map Callback.block_disconnected) := by
  intro cbs
  induction cbs with
  | nil =>
    intro hs _ hconn
    rw [show connectedHeaders [] = [] from rfl] at hconn
    subst hconn
    exact List.Forall₂.nil
  | cons cb rest ih =>
    intro hs hall hconn
    obtain ⟨b, h, rfl⟩ := hall cb (List.mem_cons_self cb rest)
    rw [show connectedHeaders (Callback.block_connected b h :: rest)
      = h :: connectedHeaders rest from rfl] at hconn
    subst hconn
    exact List.Forall₂.cons rfl
      (ih (connectedHeaders rest) (fun x hx => hall x (List.mem_cons_of_mem _ hx)) rfl)

/-- Claim C9 (amended): syncing `A → B` and then `B → A` produces
mirror-reversed listener-event sequences — each connect of the first sync
reappears as the disconnect of the second at the mirrored position and vice
versa — provided the tips sit on distinct branches (the first plan exits
through the chain-fork fast path and disconnects no header it also
connects), the second sync's lookups agree with the first's (the cache
consistency contract), lookups are determined by the parent hash, and block
hashes are acyclic and injective on the headers in play.  Without the
distinct-branch proviso the claim fails: see the counterexample, where the
return sync emits an extra disconnect/connect pair at the lower tip. -/
theorem claim_C9_amended (chain_poller : Poller) (cache1 cache2 : Cache) (fuel : Nat)
    (A B : ValidatedBlockHeader) (steps1 : List ForkStep) (r1 r2 : SyncReturn)
    (hLC : ∀ h, look_up_previous_header cache2 chain_poller h
      = look_up_previous_header cache1 chain_poller h)
    (hLPREV : ∀ h1 h2, h1.header.prev_blockhash = h2.header.prev_blockhash →
      look_up_previous_header cache1 chain_poller h1
        = look_up_previous_header cache1 chain_poller h2)
    (hLHASH : LookupHashes cache1 chain_poller)
    (hNSP : ∀ h, InPlay cache1 chain_poller B A h →
      h.block_hash ≠ h.header.prev_blockhash)
    (hINJ : ∀ h1 h2, InPlay cache1 chain_poller B A h1 →
      InPlay cache1 chain_poller B A h2 → h1.block_hash = h2.block_hash → h1 = h2)
    (hff1 : find_fork cache1 chain_poller fuel B A = some (Except.ok steps1))
    (hforks : forksOf steps1 ≠ [])
    (hdisj : ∀ h ∈ discsOf steps1, h ∉ connsOf steps1)
    (hs1 : sync_listener cache1 chain_poller fuel B A = some r1)
    (ho1 : r1.outcome = SyncOutcome.ok)
    (hs2 : sync_listener cache2 chain_poller fuel A B = some r2)
    (ho2 : r2.outcome = SyncOutcome.ok) :
    List.Forall₂ MirrorCallback r2.callbacks r1.callbacks.reverse := by
  obtain ⟨steps2, hrun2, hd2, hc2⟩ := find_fork_loop_mirror chain_poller cache1 cache2
    A B hLC hLPREV hLHASH hNSP hINJ fuel B A steps1 hff1 hforks hdisj
    (Or.inl rfl) (Or.inr (Or.inl rfl))
  have hff2 : find_fork cache2 chain_poller fuel A B = some (Except.ok steps2) := hrun2
  obtain ⟨hfetch1, hcb1⟩ := sync_listener_ok_callbacks cache1 chain_poller fuel B A
    steps1 r1 hff1 hs1 ho1
  obtain ⟨hfetch2, hcb2⟩ := sync_listener_ok_callbacks cache2 chain_poller fuel A B
    steps2 r2 hff2 hs2 ho2
  rw [hcb1, hcb2, List.reverse_append]
  apply List.rel_append
  · apply forall2_mirror_disc_conn
      ((connCallbacks chain_poller steps1.reverse).reverse) (discsOf steps2)
    · intro cb hcb
      rw [List.mem_reverse] at hcb
      exact connCallbacks_all_conn chain_poller steps1.reverse cb hcb
    · rw [connectedHeaders_reverse,
        connectedHeaders_connCallbacks chain_poller steps1.reverse hfetch1,
        connsOf_reverse, List.reverse_reverse]
      exact hd2.symm
  · rw [show (discCallbacks steps1).reverse
        = ((discsOf steps1).reverse).map Callback.block_disconnected by
      rw [discCallbacks, List.map_reverse]]
    apply forall2_mirror_conn_disc
      (connCallbacks chain_poller steps2.reverse) ((discsOf steps1).reverse)
    · exact connCallbacks_all_conn chain_poller steps2.reverse
    · rw [connectedHeaders_connCallbacks chain_poller steps2.reverse hfetch2,
        connsOf_reverse, hc2]

/-! ### Concrete facts about the round-trip witness instances -/

/-- A successful `c9lk` lookup returns the header stored at the requested
hash. -/
theorem c9lk_hash (k : Nat) (p : ValidatedBlockHeader)
    (hk : c9lk k = Except.ok p) : p.block_hash = k := by
  unfold c9lk at hk
  split_ifs at hk with e1 e2 e3
  · injection hk with hh; subst hh; subst e1; rfl
  · injection hk with hh; subst hh; subst e2; rfl
  · injection hk with hh; subst hh; subst e3; rfl

/-- Every `c9lk` result is one of the three witness headers. -/
theorem c9lk_mem (k : Nat) (p : ValidatedBlockHeader)
    (hk : c9lk k = Except.ok p) : p = wG ∨ p = wA1 ∨ p = wB1 := by
  unfold c9lk at hk
  split_ifs at hk
  · injection hk with hh; exact Or.inl hh.symm
  · injection hk with hh; exact Or.inr (Or.inl hh.symm)
  · injection hk with hh; exact Or.inr (Or.inr hh.symm)

/-- Every `c9cache1` entry sits at its own block hash. -/
theorem c9cache1_hash (k : Nat) (p : ValidatedBlockHeader)
    (hk : c9cache1 k = some p) : p.block_hash = k := by
  unfold c9cache1 at hk
  split_ifs at hk with e1 e2
  · injection hk with hh; subst hh; subst e1; rfl
  · injection hk with hh; subst hh; subst e2; rfl

/-- Every `c9cache1` entry is one of the two branch-A witness headers. -/
theorem c9cache1_mem (k : Nat) (p : ValidatedBlockHeader)
    (hk : c9cache1 k = some p) : p = wG ∨ p = wA1 := by
  unfold c9cache1 at hk
  split_ifs at hk
  · injection hk with hh; exact Or.inl hh.symm
  · injection hk with hh; exact Or.inr hh.symm

/-- The combined lookup over `c9cache2` agrees pointwise with the one over
`c9cache1`: each cache stores exactly what the poller would serve. -/
theorem c9_lookup_eq (h : ValidatedBlockHeader) :
    look_up_previous_header c9cache2 c9poller h
      = look_up_previous_header c9cache1 c9poller h := by
  obtain ⟨bh, ⟨k⟩, ht, cw⟩ := h
  show (match c9cache2 k with
      | some p => Except.ok p
      | none => c9lk k)
    = (match c9cache1 k with
      | some p => Except.ok p
      | none => c9lk k)
  by_cases e1 : k = 100
  · subst e1; rfl
  by_cases e2 : k = 101
  · subst e2; rfl
  by_cases e3 : k = 102
  · subst e3; rfl
  have h2 : c9cache2 k = none := by
    unfold c9cache2; rw [if_neg e1, if_neg e3]
  have h1 : c9cache1 k = none := by
    unfold c9cache1; rw [if_neg e1, if_neg e2]
  rw [h2, h1]

/-- Lookups over `c9cache1` and `c9poller` depend only on the argument's
parent hash. -/
theorem c9_lookup_prev (h1 h2 : ValidatedBlockHeader)
    (hp : h1.header.prev_blockhash = h2.header.prev_blockhash) :
    look_up_previous_header c9cache1 c9poller h1
      = look_up_previous_header c9cache1 c9poller h2 := by
  obtain ⟨b1, ⟨k1⟩, t1, c1⟩ := h1
  obtain ⟨b2, ⟨k2⟩, t2, c2⟩ := h2
  have hk : k1 = k2 := hp
  subst hk
  show (match c9cache1 k1 with
      | some p => Except.ok p
      | none => c9lk k1)
    = (match c9cache1 k1 with
      | some p => Except.ok p
      | none => c9lk k1)
  rfl

/-- The combined lookup over `c9cache1` and `c9poller` returns headers at the
requested parent hash. -/
theorem c9_lookup_hashes : LookupHashes c9cache1 c9poller := by
  intro h h' hk
  obtain ⟨b, ⟨k⟩, t, c⟩ := h
  have hk2 : (match c9cache1 k with
      | some p => Except.ok p
      | none => c9lk k) = Except.ok h' := hk
  show h'.block_hash = k
  cases e : c9cache1 k with
  | some p =>
      rw [e] at hk2
      injection hk2 with hh
      subst hh
      exact c9cache1_hash _ _ e
  | none =>
      rw [e] at hk2
      exact c9lk_hash _ _ hk2

/-- The headers in play between the sibling tips `wB1` and `wA1` are exactly
the three witness headers. -/
theorem c9_inplay (h : ValidatedBlockHeader)
    (hp : InPlay c9cache1 c9poller wB1 wA1 h) :
    h = wG ∨ h = wA1 ∨ h = wB1 := by
  rcases hp with rfl | rfl | ⟨x, hx⟩
  · exact Or.inr (Or.inr rfl)
  · exact Or.inr (Or.inl rfl)
  · obtain ⟨b, ⟨k⟩, t, c⟩ := x
    have hk2 : (match c9cache1 k with
        | some p => Except.ok p
        | none => c9lk k) = Except.ok h := hx
    cases e : c9cache1 k with
    | some p =>
        rw [e] at hk2
        injection hk2 with hh
        subst hh
        rcases c9cache1_mem _ _ e with h1 | h1
        · exact Or.inl h1
        · exact Or.inr (Or.inl h1)
    | none =>
        rw [e] at hk2
        exact c9lk_mem _ _ hk2

/-- No header in play between `wB1` and `wA1` is its own parent. -/
theorem c9_nsp (h : ValidatedBlockHeader)
    (hp : InPlay c9cache1 c9poller wB1 wA1 h) :
    h.block_hash ≠ h.header.prev_blockhash := by
  rcases c9_inplay h hp with rfl | rfl | rfl <;> decide

/-- Block hashes are injective on the headers in play between `wB1` and
`wA1`. -/
theorem c9_inj (h1 h2 : ValidatedBlockHeader)
    (p1 : InPlay c9cache1 c9poller wB1 wA1 h1)
    (p2 : InPlay c9cache1 c9poller wB1 wA1 h2)
    (he : h1.block_hash = h2.block_hash) : h1 = h2 := by
  rcases c9_inplay h1 p1 with rfl | rfl | rfl <;>
    rcases c9_inplay h2 p2 with rfl | rfl | rfl <;>
    first
      | rfl
      | exact absurd he (by decide)

/-- Claim C9: as stated, the round-trip mirror property is false.  Syncing
from `wA1` up to its descendant `wA2` announces a single connect, but the
return sync announces three events — the code walks both pointers down to
the common parent `wG` and re-connects `wA1` — so the second trace is not
the mirrored reverse of the first (the lengths already differ). -/
theorem claim_C9_counterexample :
    ∃ r1 r2 : SyncReturn,
      sync_listener wEmpty wPollerChain 6 wA2 wA1 = some r1 ∧
      r1.outcome = SyncOutcome.ok ∧
      sync_listener r1.header_cache wPollerChain 6 wA1 wA2 = some r2 ∧
      r2.outcome = SyncOutcome.ok ∧
      ¬ List.Forall₂ MirrorCallback r2.callbacks r1.callbacks.reverse := by
  refine ⟨⟨SyncOutcome.ok, Cache.insert wEmpty 103 wA2,
      [Callback.block_connected ⟨103⟩ wA2]⟩,
    ⟨SyncOutcome.ok,
      Cache.insert (Cache.remove (Cache.insert wEmpty 103 wA2) 103) 101 wA1,
      [Callback.block_disconnected wA2, Callback.block_disconnected wA1,
        Callback.block_connected ⟨101⟩ wA1]⟩,
    ?_, rfl, ?_, rfl, ?_⟩
  · rfl
  · rfl
  · intro hcon
    exact absurd hcon.length_eq (by decide)

/-- Witness for `claim_C9_amended`: between the sibling tips `wA1` and `wB1`
(distinct branches, fork-path plans, consistent caches) the return sync's two
callbacks mirror the first sync's two callbacks in reverse. -/
theorem claim_C9_amended_witness :
    List.Forall₂ MirrorCallback
      [Callback.block_disconnected wB1, Callback.block_connected ⟨101⟩ wA1]
      ([Callback.block_disconnected wA1,
        Callback.block_connected ⟨102⟩ wB1].reverse) :=
  claim_C9_amended c9poller c9cache1 c9cache2 5 wA1 wB1
    [ForkStep.DisconnectBlock wA1, ForkStep.ConnectBlock wB1, ForkStep.ForkPoint wG]
    ⟨SyncOutcome.ok, Cache.insert (Cache.remove c9cache1 101) 102 wB1,
      [Callback.block_disconnected wA1, Callback.block_connected ⟨102⟩ wB1]⟩
    ⟨SyncOutcome.ok, Cache.insert (Cache.remove c9cache2 102) 101 wA1,
      [Callback.block_disconnected wB1, Callback.block_connected ⟨101⟩ wA1]⟩
    c9_lookup_eq c9_lookup_prev c9_lookup_hashes c9_nsp c9_inj
    (by decide) (by decide) (by decide) rfl rfl rfl rfl
